import Mathlib

/-!
# web3golanghelper: transaction construction and submission

A shallow embedding of `web3helper/service.go`.

* Go values that may be `nil` (`*big.Int`, `*common.Address`, `*ethclient.Client`)
  are `Option`s; `interface{}` arguments are values of `Iface`.
* `uint64` and `int64` are `Nat` / `Int` with the wrap-around written out
  (`toInt64`, `Uint64`).
* A run of a method is a `Run`: its outcome (a returned value, a run-time panic,
  or the process exit of `log.Fatal`) together with the ordered list of calls it
  made to go-ethereum (`Event`).
* The node behind a connection is a `Client`: the answers it gives to each RPC.
* Functions of imported libraries whose code is not part of this repository
  (secp256k1, keccak, hex decoding, shopspring/decimal parsing, gob, ...) are the
  fields of `Lib`; every definition that uses one takes `L : Lib` as a parameter.
-/

namespace Web3Helper

/-! ## Data model -/

/-- Byte slices, one natural number below 256 per byte. -/
abbrev Bytes := List Nat

/-- The 20 bytes of a `common.Address`. -/
abbrev Address := List Nat

/-- Log levels declared at the top of service.go. -/
inductive LogLevel where
  | NoneLogLevel
  | LowLogLevel
  | MediumLogLevel
  | HighLogLevel
deriving DecidableEq, Repr

/-- Package variable `defaultGasLimit`; it is never reassigned. -/
def defaultGasLimit : Nat := 7000000

/-- Package variable `logLevel`; it is never reassigned. -/
def logLevel : LogLevel := LogLevel.HighLogLevel

/-- A shopspring `decimal.Decimal`: the number `value * 10 ^ exp`. -/
structure Decimal where
  value : Int
  exp : Int
deriving DecidableEq, Repr

/-- Dynamic values that reach the `interface{}` parameters of the package. -/
inductive Iface where
  | nil
  | string (s : String)
  | int (n : Int)
  | int64 (n : Int)
  | uint64 (n : Nat)
  | float64 (bits : Nat)
  | bigInt (p : Option Int)
  | decimal (d : Decimal)
  | decimalPtr (d : Option Decimal)
  | bytes (b : Bytes)
  | address (a : Address)
  | other
deriving DecidableEq, Repr

/-- The `types.LegacyTx` literal handed to `types.NewTx`. -/
structure LegacyTx where
  Nonce : Nat
  GasPrice : Option Int
  Gas : Nat
  To : Address
  Value : Option Int
  Data : Bytes
deriving DecidableEq, Repr

/-- A signed transaction, identified by what it is a function of: the
transaction, the chain id of the EIP-155 signer and the private scalar. -/
structure SignedTx where
  tx : LegacyTx
  chainID : Int
  key : Nat
deriving DecidableEq, Repr

/-- Which of the helper's two connections a call went through. -/
inductive Conn where
  | ws
  | http
deriving DecidableEq, Repr

/-- Remote procedure calls of `ethclient.Client` used by the package. -/
inductive Rpc where
  | BlockNumber
  | SuggestGasPrice
  | EstimateGas (toAddress : Address) (data : Bytes)
  | PendingNonceAt (account : Address)
  | NetworkID
  | CodeAt (account : Address)
  | SendTransaction (stx : SignedTx)
deriving DecidableEq, Repr

/-- Observable calls into go-ethereum, in program order. -/
inductive Event where
  | rpc (via : Conn) (call : Rpc)
  | NewTx (tx : LegacyTx)
deriving DecidableEq, Repr

/-- The node behind an `ethclient.Client`: its answer to each call. An error is
the `error` branch; `SendTransaction` answers `none` when it accepts. -/
structure Client where
  BlockNumber : Except String Nat
  SuggestGasPrice : Except String Int
  EstimateGas : Address → Bytes → Except String Nat
  PendingNonceAt : Address → Except String Nat
  NetworkID : Except String Int
  CodeAt : Address → Except String Bytes
  SendTransaction : SignedTx → Option String

/-- Functions of imported libraries, taken as parameters. -/
structure Lib where
  /-- `crypto.HexToECDSA`: the private scalar, or the decoding error. -/
  HexToECDSA : String → Except String Nat
  /-- `crypto.PubkeyToAddress` of the public key of a private scalar. -/
  PubkeyToAddress : Nat → Address
  /-- `common.HexToAddress`. -/
  HexToAddress : String → Address
  /-- `common.Address.Hex`. -/
  AddressHex : Address → String
  /-- The error of `types.SignTx`, if any. -/
  SignTxErr : LegacyTx → Int → Nat → Option String
  /-- `Transaction.Hash().Hex()` of a signed transaction. -/
  TxHashHex : SignedTx → String
  /-- The error of `Transaction.MarshalJSON`, if any. -/
  MarshalJSONErr : SignedTx → Option String
  /-- Legacy Keccak-256. -/
  Keccak256 : Bytes → Bytes
  /-- `decimal.NewFromString`. -/
  NewFromString : String → Except String Decimal
  /-- `decimal.NewFromFloat` on the bits of a float64. -/
  NewFromFloat : Nat → Decimal
  /-- The conversion `float64(v)` of an int64, as float64 bits. -/
  Float64OfInt64 : Int → Nat
  /-- The bytes written by `gob.NewEncoder(buf).Encode`. -/
  GobEncode : List String → Bytes
  /-- The error of `url.ParseRequestURI`, if any. -/
  ParseRequestURI : String → Option String
  /-- `ethclient.Dial`. -/
  Dial : String → Except String Client

/-- The struct `Web3GolangHelper`. -/
structure Web3GolangHelper where
  plainPrivateKey : String
  httpClient : Option Client
  wsClient : Option Client
  FromAddress : Option Address

/-! ## Outcomes and traces -/

/-- How a Go call ends: it returns, it panics, or `log.Fatal` exits the process. -/
inductive Res (α : Type) where
  | ret (a : α)
  | panic (msg : String)
  | fatal (msg : String)
deriving DecidableEq, Repr

/-- The outcome of a call and the go-ethereum calls it made, in order. -/
structure Run (α : Type) where
  res : Res α
  log : List Event
deriving DecidableEq, Repr

/-- Return a value without calling anything. -/
def Run.pure {α : Type} (a : α) : Run α := ⟨Res.ret a, []⟩

/-- Sequencing: the second part runs only when the first returned. -/
def Run.bind {α β : Type} (x : Run α) (f : α → Run β) : Run β :=
  match x.res with
  | Res.ret a => ⟨(f a).res, x.log ++ (f a).log⟩
  | Res.panic m => ⟨Res.panic m, x.log⟩
  | Res.fatal m => ⟨Res.fatal m, x.log⟩

instance : Monad Run where
  pure := Run.pure
  bind := Run.bind

/-- Record one call. -/
def emit (e : Event) : Run Unit := ⟨Res.ret (), [e]⟩

/-- A run-time panic. -/
def goPanic {α : Type} (msg : String) : Run α := ⟨Res.panic msg, []⟩

/-- The call `log.Fatal(msg)`. -/
def logFatal {α : Type} (msg : String) : Run α := ⟨Res.fatal msg, []⟩

/-- Message of a nil pointer dereference. -/
def nilDeref : String := "invalid memory address or nil pointer dereference"

/-- Message of a failed type assertion. -/
def badAssert : String := "interface conversion"

/-- The transactions passed to `types.NewTx` during a run. -/
def builtTxs : List Event → List LegacyTx
  | [] => []
  | Event.NewTx tx :: es => tx :: builtTxs es
  | Event.rpc _ _ :: es => builtTxs es

/-- The signed transactions passed to `SendTransaction` during a run. -/
def sentTxs : List Event → List SignedTx
  | [] => []
  | Event.rpc _ (Rpc.SendTransaction stx) :: es => stx :: sentTxs es
  | _ :: es => sentTxs es

/-- The calls made to a chain client during a run. -/
def rpcCalls : List Event → List Rpc
  | [] => []
  | Event.rpc _ call :: es => call :: rpcCalls es
  | Event.NewTx _ :: es => rpcCalls es

/-! ## Integer conversions -/

/-- The Go conversion `int64(n)` of a uint64. -/
def toInt64 (n : Nat) : Int :=
  if n % 2 ^ 64 < 2 ^ 63 then ((n % 2 ^ 64 : Nat) : Int) else ((n % 2 ^ 64 : Nat) : Int) - 2 ^ 64

/-- The Go conversion to int64 of a mathematical integer (two's complement). -/
def wrapInt64 (x : Int) : Int :=
  if x % 2 ^ 64 < 2 ^ 63 then x % 2 ^ 64 else x % 2 ^ 64 - 2 ^ 64

/-- The method `(*big.Int).Uint64`: the low 64 bits of the absolute value. -/
def Uint64 (x : Int) : Nat := x.natAbs % 2 ^ 64

/-- The method `(*big.Int).Int64`: the low 64 bits of the absolute value read as
an int64, negated when the number is negative. -/
def Int64 (x : Int) : Int :=
  if x < 0 then wrapInt64 (-(toInt64 (Uint64 x))) else toInt64 (Uint64 x)

/-! ## Pure helpers of service.go -/

/-- The class `[0-9a-fA-F]`. -/
def isHexChar (c : Char) : Bool :=
  ('0' ≤ c && c ≤ '9') || ('a' ≤ c && c ≤ 'f') || ('A' ≤ c && c ≤ 'F')

/-- The function `ValidateAddress`: a match of `^0x[0-9a-fA-F]{40}$`. -/
def ValidateAddress (address : String) : Bool :=
  match address.data with
  | '0' :: 'x' :: rest => rest.length == 40 && rest.all isHexChar
  | _ => false

/-- The function `BuildTxData`: the concatenation of its arguments. -/
def BuildTxData (data : List Bytes) : Bytes :=
  data.foldl (fun txData v => txData ++ v) []

/-- The function `common.LeftPadBytes`. -/
def LeftPadBytes (slice : Bytes) (l : Nat) : Bytes :=
  if l ≤ slice.length then slice else List.replicate (l - slice.length) 0 ++ slice

/-- Big-endian digits in base 256, most significant first, with `fuel` steps. -/
def natBytesAux : Nat → Nat → Bytes → Bytes
  | 0, _, acc => acc
  | fuel + 1, n, acc => if n = 0 then acc else natBytesAux fuel (n / 256) (n % 256 :: acc)

/-- The method `(*big.Int).Bytes`: the absolute value, big-endian. -/
def bigBytes (x : Int) : Bytes := natBytesAux x.natAbs x.natAbs []

/-- The bytes of an ASCII string literal. -/
def strBytes (s : String) : Bytes := s.data.map Char.toNat

/-- The function `ToWei`. `decimals` is 18 or 0 at every call site; the factor
`10 ^ decimals` is exact. The result is what `big.Int.SetString` leaves in `wei`
for the decimal string of `amount * 10 ^ decimals`: the integer itself, or the
digits before the point when there is a fractional part. Only the five listed
dynamic types are converted; every other one leaves `amount` at zero. -/
def ToWei (L : Lib) (iamount : Iface) (decimals : Nat) : Run Int := do
  let amount : Decimal ← (match iamount with
    | Iface.string v =>
      (match L.NewFromString v with
      | Except.ok d => Run.pure d
      | Except.error _ => Run.pure ⟨0, 0⟩)
    | Iface.float64 v => Run.pure (L.NewFromFloat v)
    | Iface.int64 v => Run.pure (L.NewFromFloat (L.Float64OfInt64 v))
    | Iface.decimal v => Run.pure v
    | Iface.decimalPtr (some v) => Run.pure v
    | Iface.decimalPtr none => goPanic nilDeref
    | _ => Run.pure ⟨0, 0⟩)
  let result : Decimal := ⟨amount.value * 10 ^ decimals, amount.exp⟩
  if 0 ≤ result.exp then
    pure (result.value * 10 ^ result.exp.toNat)
  else
    pure (Int.tdiv result.value (10 ^ (-result.exp).toNat))

/-! ## Methods of `Web3GolangHelper` -/

/-- The method `selectClient`: the websocket connection when there is one, else
the http connection, else `log.Fatal`. -/
def selectClient (w : Web3GolangHelper) : Run (Conn × Client) :=
  match w.wsClient with
  | some c => pure (Conn.ws, c)
  | none =>
    match w.httpClient with
    | some c => pure (Conn.http, c)
    | none => logFatal "SuggestGasPrice: Not conected"

/-- The method `SetPrivateKey`. -/
def SetPrivateKey (w : Web3GolangHelper) (plainPrivateKey : String) : Web3GolangHelper :=
  { w with plainPrivateKey := plainPrivateKey }

/-- The method `IsAddressContract`. -/
def IsAddressContract (L : Lib) (w : Web3GolangHelper) (address : String) : Run Bool :=
  if !ValidateAddress address then
    pure false
  else
    match w.httpClient with
    | none => goPanic nilDeref
    | some c => do
      emit (Event.rpc Conn.http (Rpc.CodeAt (L.HexToAddress address)))
      match c.CodeAt (L.HexToAddress address) with
      | Except.error _ => pure false
      | Except.ok bytecode => pure (decide (bytecode.length > 0))

/-- The method `ChainId`: it always asks the http connection. -/
def ChainId (w : Web3GolangHelper) : Run Int :=
  match w.httpClient with
  | none => goPanic nilDeref
  | some c => do
    emit (Event.rpc Conn.http Rpc.NetworkID)
    match c.NetworkID with
    | Except.error e => logFatal e
    | Except.ok chainID => pure chainID

/-- The method `PendingNonce`. -/
def PendingNonce (w : Web3GolangHelper) : Run Int := do
  let (conn, client) ← selectClient w
  match w.FromAddress with
  | none => goPanic nilDeref
  | some a => do
    emit (Event.rpc conn (Rpc.PendingNonceAt a))
    match client.PendingNonceAt a with
    | Except.error e => logFatal e
    | Except.ok nonce => pure (toInt64 nonce)

/-- The method `SignTx`. -/
def SignTx (L : Lib) (w : Web3GolangHelper) (tx : LegacyTx) : Run (Except String SignedTx) :=
  match L.HexToECDSA w.plainPrivateKey with
  | Except.error privateKeyErr => pure (Except.error privateKeyErr)
  | Except.ok privateKey => do
    let chainID ← ChainId w
    match L.SignTxErr tx chainID privateKey with
    | some signTxErr => pure (Except.error signTxErr)
    | none => pure (Except.ok ⟨tx, chainID, privateKey⟩)

/-- The method `EstimateGas`: zero when the node answers with an error. -/
def EstimateGas (L : Lib) (w : Web3GolangHelper) (toStr : String) (txData : Bytes) : Run Nat := do
  let toAddress := L.HexToAddress toStr
  let (conn, client) ← selectClient w
  emit (Event.rpc conn (Rpc.EstimateGas toAddress txData))
  match client.EstimateGas toAddress txData with
  | Except.error _ => pure 0
  | Except.ok estimateGas => pure estimateGas

/-- The line `strconv.Itoa(int(usedGasPrice.Int64()))` of the medium log level:
it dereferences the price. -/
def printGasPrice (usedGasPrice : Option Int) : Run Unit :=
  match usedGasPrice with
  | none => goPanic nilDeref
  | some _ => pure ()

/-- Lines 397-408 of `SignAndSendTransaction`: the gas price that is used. -/
def resolveGasPrice (w : Web3GolangHelper) (customGasPrice : Iface) : Run (Option Int) := do
  let (conn, client) ← selectClient w
  emit (Event.rpc conn Rpc.SuggestGasPrice)
  let suggested : Option Int := client.SuggestGasPrice.toOption
  if logLevel = LogLevel.MediumLogLevel then printGasPrice suggested else pure ()
  match customGasPrice with
  | Iface.nil => pure suggested
  | Iface.bigInt p => do
    if logLevel = LogLevel.MediumLogLevel then printGasPrice p else pure ()
    pure p
  | _ => goPanic badAssert

/-- Lines 410-430 of `SignAndSendTransaction`: the gas limit that is used. -/
def resolveGasLimit (L : Lib) (w : Web3GolangHelper) (toAddressString : String) (data : Bytes)
    (customGasLimit : Iface) : Run Nat :=
  match customGasLimit with
  | Iface.nil =>
    if data.length > 0 then EstimateGas L w toAddressString data else pure defaultGasLimit
  | Iface.uint64 g => pure g
  | _ => goPanic badAssert

/-- Lines 443-475 of `SignAndSendTransaction`: sign, broadcast, and return Go's
triple `(txId, nonce, err)`. -/
def signAndBroadcast (L : Lib) (w : Web3GolangHelper) (tx : LegacyTx) (nonce : Option Int) :
    Run (String × Option Int × Option String) := do
  let signed ← SignTx L w tx
  match signed with
  | Except.error signTxErr => pure ("", some 0, some signTxErr)
  | Except.ok singedTx => do
    let (conn, client) ← selectClient w
    emit (Event.rpc conn (Rpc.SendTransaction singedTx))
    match client.SendTransaction singedTx with
    | some sendTxErr => pure ("", some 0, some sendTxErr)
    | none =>
      if logLevel = LogLevel.HighLogLevel then
        match L.MarshalJSONErr singedTx with
        | some e => pure ("", some 0, some e)
        | none => pure (L.TxHashHex singedTx, nonce, none)
      else
        pure (L.TxHashHex singedTx, nonce, none)

/-- The method `SignAndSendTransaction`: resolve the gas price (lines 397-408)
and the gas limit (410-430), build the transaction (432-441), then sign and
broadcast it (443-475). -/
def SignAndSendTransaction (L : Lib) (w : Web3GolangHelper) (toAddressString : String)
    (value : Option Int) (data : Bytes) (nonce : Option Int)
    (customGasPrice customGasLimit : Iface) : Run (String × Option Int × Option String) := do
  let usedGasPrice ← resolveGasPrice w customGasPrice
  let usedGasLimit ← resolveGasLimit L w toAddressString data customGasLimit
  let toAddress := L.HexToAddress toAddressString
  let txNonce : Nat ← (match nonce with
    | none => goPanic nilDeref
    | some n => Run.pure (Uint64 n))
  let tx : LegacyTx := ⟨txNonce, usedGasPrice, usedGasLimit, toAddress, value, data⟩
  emit (Event.NewTx tx)
  signAndBroadcast L w tx nonce

/-- The method `SendEth`. -/
def SendEth (L : Lib) (w : Web3GolangHelper) (toAddressString : String) (value : String) :
    Run (String × Option Int × Option String) := do
  let wei ← ToWei L (Iface.string value) 18
  let pending ← PendingNonce w
  let (txId, nonce, err) ← SignAndSendTransaction L w toAddressString (some wei) [] (some pending)
    Iface.nil Iface.nil
  match err with
  | some e => pure ("", some 0, some e)
  | none => pure (txId, nonce, none)

/-- The method `SendTokens`. -/
def SendTokens (L : Lib) (w : Web3GolangHelper) (tokenAddressString toAddressString : String)
    (value : Option Int) : Run (String × Option Int × Option String) := do
  let toAddress := L.HexToAddress toAddressString
  let methodID := (L.Keccak256 (strBytes "transfer(address,uint256)")).take 4
  let paddedAddress := LeftPadBytes toAddress 32
  let amountBytes : Bytes ← (match value with
    | none => goPanic nilDeref
    | some v => Run.pure (bigBytes v))
  let paddedAmount := LeftPadBytes amountBytes 32
  let txData := BuildTxData [methodID, paddedAddress, paddedAmount]
  let estimateGas ← EstimateGas L w tokenAddressString txData
  let wei ← ToWei L (Iface.bigInt value) 18
  let pending ← PendingNonce w
  let (txId, txNonce, err) ← SignAndSendTransaction L w toAddressString (some wei) txData
    (some pending) Iface.nil (Iface.uint64 estimateGas)
  match err with
  | some e => pure ("", some 0, some e)
  | none => pure (txId, txNonce, none)

/-- The method `CancelTx`; it returns Go's pair `(txId, err)`. -/
def CancelTx (L : Lib) (w : Web3GolangHelper) (toStr : String) (nonce : Option Int)
    (multiplier : Int) : Run (String × Option String) := do
  let (conn, client) ← selectClient w
  emit (Event.rpc conn Rpc.SuggestGasPrice)
  let gasPrice : Option Int := client.SuggestGasPrice.toOption
  let wei ← ToWei L (Iface.int 0) 0
  let bumped : Int ← (match gasPrice with
    | none => goPanic nilDeref
    | some p => Run.pure (wrapInt64 (Int64 p * multiplier)))
  let (txId, _, err) ← SignAndSendTransaction L w toStr (some wei) [] nonce
    Iface.nil (Iface.bigInt (some bumped))
  match err with
  | some e => pure ("", some e)
  | none => pure (txId, none)

/-- The function `GeneratePath`. -/
def GeneratePath (L : Lib) (tokenAContractPlainAddress tokenBContractPlainAddress : String) :
    List Address :=
  [L.HexToAddress tokenAContractPlainAddress, L.HexToAddress tokenBContractPlainAddress]

/-- The method `BuyV2`; `now` is `time.Now().Unix()`. It returns nothing: the
transaction id, the nonce and a possible error are only printed. -/
def BuyV2 (L : Lib) (w : Web3GolangHelper) (now : Int) (tokenAddress : String)
    (value : Option Int) : Run Unit := do
  let toAddress := L.HexToAddress "0x9Ac64Cc6e4415144C455BD8E4837Fea55603e5c3"
  let wBnbContractAddress := "0xae13d989daC2f0dEbFf460aC112a837C89BAa7cd"
  let methodID := (L.Keccak256 (strBytes
    "swapExactETHForTokensSupportingFeeOnTransferTokens(uint,address[],address,uint)")).take 4
  let path := GeneratePath L wBnbContractAddress tokenAddress
  let pathString := path.map L.AddressHex
  let deadline : Int := wrapInt64 (now + 10000)
  let bs := L.GobEncode pathString
  let amountBytes : Bytes ← (match value with
    | none => goPanic nilDeref
    | some v => Run.pure (bigBytes v))
  let paddedAmountOutMin := LeftPadBytes amountBytes 32
  let paddedPath := LeftPadBytes bs 32
  let paddedTo := LeftPadBytes toAddress 32
  let paddedDeadline := LeftPadBytes (bigBytes deadline) 32
  let txData := BuildTxData [methodID, paddedAmountOutMin, paddedPath, paddedTo, paddedDeadline]
  let estimateGas ← EstimateGas L w (L.AddressHex toAddress) txData
  let wei ← ToWei L (Iface.bigInt value) 18
  let pending ← PendingNonce w
  let _ ← SignAndSendTransaction L w (L.AddressHex toAddress) (some wei) txData
    (some pending) Iface.nil (Iface.uint64 estimateGas)
  pure ()

/-- The method `SwitchAccount`. A key that does not decode is only printed, and
the nil private key is dereferenced by `privateKey.Public()`. The type assertion
on the public key cannot fail: `Public` returns a `*ecdsa.PublicKey`. -/
def SwitchAccount (L : Lib) (w : Web3GolangHelper) (plainPrivateKey : String) :
    Run Web3GolangHelper :=
  match L.HexToECDSA plainPrivateKey with
  | Except.error _ => goPanic nilDeref
  | Except.ok privateKey => pure { w with FromAddress := some (L.PubkeyToAddress privateKey) }

/-- The function `GeneratePublicAddressFromPrivateKey`. -/
def GeneratePublicAddressFromPrivateKey (L : Lib) (plainPrivateKey : String) : Run Address :=
  match L.HexToECDSA plainPrivateKey with
  | Except.error err => logFatal err
  | Except.ok privateKey => pure (L.PubkeyToAddress privateKey)

/-- The function `NewWsWeb3Client`. -/
def NewWsWeb3Client (L : Lib) (rpcUrl : String) : Run Client :=
  match L.ParseRequestURI rpcUrl with
  | some err => logFatal err
  | none =>
    match L.Dial rpcUrl with
    | Except.error wsClientErr => logFatal wsClientErr
    | Except.ok wsClient => do
      emit (Event.rpc Conn.ws Rpc.BlockNumber)
      match wsClient.BlockNumber with
      | Except.error getBlockErr => logFatal getBlockErr
      | Except.ok _ => pure wsClient

/-- The function `NewHttpWeb3Client`. -/
def NewHttpWeb3Client (L : Lib) (rpcUrl : String) : Run Client :=
  match L.Dial rpcUrl with
  | Except.error err => logFatal err
  | Except.ok client => do
    emit (Event.rpc Conn.http Rpc.BlockNumber)
    match client.BlockNumber with
    | Except.error getBlockErr => logFatal getBlockErr
    | Except.ok _ => pure client

/-- The function `NewWeb3GolangHelper`. -/
def NewWeb3GolangHelper (L : Lib) (rpcUrl wsUrl plainPrivateKey : String) :
    Run Web3GolangHelper := do
  let goWeb3WsManager ← NewWsWeb3Client L wsUrl
  let goWeb3HttpManager ← NewHttpWeb3Client L rpcUrl
  let fromAddress ← GeneratePublicAddressFromPrivateKey L plainPrivateKey
  pure ⟨plainPrivateKey, some goWeb3HttpManager, some goWeb3WsManager, some fromAddress⟩

/-! ## Concrete instances used to evaluate the model -/

/-- Value of a hexadecimal digit (zero for any other character). -/
def hexDigit (c : Char) : Nat :=
  if '0' ≤ c && c ≤ '9' then c.toNat - 48
  else if 'a' ≤ c && c ≤ 'f' then c.toNat - 87
  else if 'A' ≤ c && c ≤ 'F' then c.toNat - 55
  else 0

/-- Value of a string of hexadecimal digits. -/
def hexValue (cs : List Char) : Nat := cs.foldl (fun acc c => 16 * acc + hexDigit c) 0

/-- The lower-case hexadecimal digit of a number below 16. -/
def hexChar (n : Nat) : Char := if n < 10 then Char.ofNat (48 + n) else Char.ofNat (87 + n)

/-- Lower-case hexadecimal rendering of bytes after `0x`. -/
def hexString (bs : Bytes) : String :=
  String.mk ('0' :: 'x' :: (bs.map (fun b => [hexChar (b / 16 % 16), hexChar (b % 16)])).flatten)

/-- Hex decoding of an address string: the `0x` head is dropped and the low 20
bytes of the value are kept. -/
def fakeHexToAddress (s : String) : Address :=
  match s.data with
  | '0' :: 'x' :: rest => LeftPadBytes (bigBytes (hexValue rest % 2 ^ 160)) 20
  | cs => LeftPadBytes (bigBytes (hexValue cs % 2 ^ 160)) 20

/-- A node that answers every query and accepts every broadcast. -/
def fakeClient : Client where
  BlockNumber := Except.ok 1
  SuggestGasPrice := Except.ok 5
  EstimateGas := fun _ _ => Except.ok 21000
  PendingNonceAt := fun _ => Except.ok 7
  NetworkID := Except.ok 97
  CodeAt := fun _ => Except.ok []
  SendTransaction := fun _ => none

/-- A stand-in for the imported libraries: keys are 64 hexadecimal digits of a
non-zero scalar, and the address of a scalar is its low 20 bytes. -/
def fakeLib : Lib where
  HexToECDSA := fun s =>
    if s.data.length = 64 ∧ s.data.all isHexChar = true ∧ hexValue s.data ≠ 0 then
      Except.ok (hexValue s.data)
    else Except.error "invalid private key"
  PubkeyToAddress := fun d => LeftPadBytes (bigBytes (d % 2 ^ 160)) 20
  HexToAddress := fakeHexToAddress
  AddressHex := hexString
  SignTxErr := fun _ _ _ => none
  TxHashHex := fun stx => hexString (LeftPadBytes (bigBytes stx.tx.Nonce) 32)
  MarshalJSONErr := fun _ => none
  Keccak256 := fun b => LeftPadBytes (b.take 32) 32
  NewFromString := fun s =>
    if s.data ≠ [] ∧ s.data.all Char.isDigit = true then
      Except.ok ⟨s.data.foldl (fun acc c => 10 * acc + ((c.toNat - 48 : Nat) : Int)) 0, 0⟩
    else Except.error "can't convert to decimal"
  NewFromFloat := fun _ => ⟨0, 0⟩
  Float64OfInt64 := fun _ => 0
  GobEncode := fun ss => (ss.map strBytes).flatten
  ParseRequestURI := fun s => if s.data = [] then some "empty url" else none
  Dial := fun _ => Except.ok fakeClient

/-- The key quoted in main.go. -/
def mainKey : String := "cde686c74df7db569dc5978b38ec5f051ad93a9f9729c4717993fec9a75fe335"

/-- A second well-formed key. -/
def otherKey : String := "0000000000000000000000000000000000000000000000000000000000000001"

/-- A helper connected to node `c` on both connections, holding `mainKey` and
the address `fakeLib` derives from it. -/
def fakeHelper (c : Client) : Web3GolangHelper :=
  ⟨mainKey, some c, some c, some (LeftPadBytes (bigBytes (hexValue mainKey.data % 2 ^ 160)) 20)⟩

/-- The node `fakeClient` with suggested gas price `p`. -/
def nodeSuggesting (p : Int) : Client := { fakeClient with SuggestGasPrice := Except.ok p }

/-! ## Properties stated over the model -/

/-- The account invariant: `plainPrivateKey` decodes, and `FromAddress` is the
address derived from it. -/
def KeyAddressInv (L : Lib) (w : Web3GolangHelper) : Bool :=
  match L.HexToECDSA w.plainPrivateKey with
  | Except.ok d => w.FromAddress == some (L.PubkeyToAddress d)
  | Except.error _ => false

/-- A gas-price override as the `interface{}` argument: absent is `nil`, present
is a `*big.Int`. -/
def priceOverride : Option Int → Iface
  | none => Iface.nil
  | some p => Iface.bigInt (some p)

/-- A gas-limit override as the `interface{}` argument: absent is `nil`, present
is a `uint64`. -/
def limitOverride : Option Nat → Iface
  | none => Iface.nil
  | some g => Iface.uint64 g

/-- The gas price as the specification words it: the override verbatim,
otherwise the suggested price of the chain. -/
def specGasPrice (override : Option Int) (suggested : Int) : Int :=
  match override with
  | some p => p
  | none => suggested

/-- The gas limit as the specification words it: the override verbatim, else
the estimate when the calldata is non-empty, else the fixed default 7,000,000. -/
def specGasLimit (override : Option Nat) (data : Bytes) (estimate : Nat) : Nat :=
  match override with
  | some g => g
  | none => if data ≠ [] then estimate else 7000000

/-- The node `fakeClient`, except that it rejects every gas estimation. -/
def nodeRejectingEstimate : Client :=
  { fakeClient with EstimateGas := fun _ _ => Except.error "execution reverted" }

/-- The node `fakeClient` with pending nonce `n` for every account. -/
def nodeWithNonce (n : Nat) : Client := { fakeClient with PendingNonceAt := fun _ => Except.ok n }

/-- The nonce in the triple a submission returned, if it returned. -/
def returnedNonce (r : Run (String × Option Int × Option String)) : Option Int :=
  match r.res with
  | Res.ret (_, nonce, _) => nonce
  | _ => none

/-! ## Gas cost, signatures and address patterns -/

/-- The function `CalcGasCost`: `big.NewInt(int64(gasLimit))` times `gasPrice`. -/
def CalcGasCost (gasLimit : Nat) (gasPrice : Option Int) : Run Int :=
  match gasPrice with
  | none => goPanic nilDeref
  | some p => pure (toInt64 gasLimit * p)

/-- The function `common.Bytes2Hex`: two lower-case hexadecimal digits per byte. -/
def Bytes2Hex (d : Bytes) : List Char :=
  match d with
  | [] => []
  | b :: bs => hexChar (b / 16 % 16) :: hexChar (b % 16) :: Bytes2Hex bs

/-- The function `hex.DecodeString` with its error dropped: the bytes decoded
before the first character that is not a hexadecimal digit, or before a last
unpaired character. -/
def hexDecode : List Char → Bytes
  | a :: b :: rest =>
    if isHexChar a && isHexChar b then (16 * hexDigit a + hexDigit b) :: hexDecode rest else []
  | _ => []

/-- The function `common.FromHex`: drop a leading `0x` or `0X`, put a `0` in
front of an odd number of digits, decode. -/
def FromHex (s : List Char) : Bytes :=
  let body := match s with
    | '0' :: 'x' :: rest => rest
    | '0' :: 'X' :: rest => rest
    | cs => cs
  if body.length % 2 = 1 then hexDecode ('0' :: body) else hexDecode body

/-- The function `hexutil.Decode` with its error dropped: an empty string or a
missing `0x` gives no bytes, otherwise what `hex.DecodeString` decoded. -/
def hexutilDecode (s : List Char) : Bytes :=
  match s with
  | '0' :: 'x' :: rest => hexDecode rest
  | '0' :: 'X' :: rest => hexDecode rest
  | _ => []

/-- The string slice `s[lo:hi]`; out of range is a panic. -/
def sliceStr (s : List Char) (lo hi : Nat) : Run (List Char) :=
  if lo ≤ hi ∧ hi ≤ s.length then pure ((s.drop lo).take (hi - lo))
  else goPanic "slice bounds out of range"

/-- The statement `copy(R[:], src)` into a zeroed `[32]byte`. -/
def copy32 (src : Bytes) : Bytes :=
  src.take 32 ++ List.replicate (32 - (src.take 32).length) 0

/-- The function `strconv.Atoi` with its error dropped: an optional sign and
decimal digits give their value (clamped to the int64 range), anything else
gives 0. -/
def Atoi (s : List Char) : Int :=
  let digitsValue (ds : List Char) : Option Int :=
    if ds ≠ [] ∧ ds.all Char.isDigit = true then
      some (ds.foldl (fun acc c => 10 * acc + ((c.toNat - 48 : Nat) : Int)) 0)
    else none
  let clamp (v : Int) : Int :=
    if v > 2 ^ 63 - 1 then 2 ^ 63 - 1 else if v < -(2 ^ 63) then -(2 ^ 63) else v
  match s with
  | '+' :: ds => (match digitsValue ds with
    | some v => clamp v
    | none => 0)
  | '-' :: ds => (match digitsValue ds with
    | some v => clamp (-v)
    | none => 0)
  | ds => (match digitsValue ds with
    | some v => clamp v
    | none => 0)

/-- The function `SigRSV`; it returns `(R, S, V)`. -/
def SigRSV (isig : Iface) : Run (Bytes × Bytes × Nat) := do
  let sig : Bytes := match isig with
    | Iface.bytes v => v
    | Iface.string v => hexutilDecode v.data
    | _ => []
  let sigstr := Bytes2Hex sig
  let rS ← sliceStr sigstr 0 64
  let sS ← sliceStr sigstr 64 128
  let R := copy32 (FromHex rS)
  let S := copy32 (FromHex sS)
  let vStr ← sliceStr sigstr 128 130
  let vI := Atoi vStr
  let V : Nat := ((vI + 27) % 256).toNat
  pure (R, S, V)

/-- Items of the regular expressions the package compiles. A pattern is a list
of items matched one after the other; a counted repetition `x{n}` is `n` copies
of `x`. -/
inductive Re where
  | beginText
  | endText
  | lit (c : Char)
  | cls (ranges : List (Char × Char))
deriving DecidableEq, Repr

/-- The pattern `^0x[0-9a-fA-F]{40}$` of `IsValidAddress` and `ValidateAddress`. -/
def addressPattern : List Re :=
  Re.beginText :: Re.lit '0' :: Re.lit 'x'
    :: (List.replicate 40 (Re.cls [('0', '9'), ('a', 'f'), ('A', 'F')]) ++ [Re.endText])

/-- Does the pattern match a prefix of the text at the current position?
`atStart` says whether that position is the beginning of the text; `$` matches
only at the very end of the text (Go's default, without the `m` flag). -/
def matchHere : List Re → Bool → List Char → Bool
  | [], _, _ => true
  | Re.beginText :: items, atStart, cs => atStart && matchHere items atStart cs
  | Re.endText :: items, atStart, cs => cs.isEmpty && matchHere items atStart cs
  | Re.lit c :: items, _, d :: cs => (c == d) && matchHere items false cs
  | Re.cls ranges :: items, _, d :: cs =>
    ranges.any (fun r => decide (r.1 ≤ d) && decide (d ≤ r.2)) && matchHere items false cs
  | Re.lit _ :: _, _, [] => false
  | Re.cls _ :: _, _, [] => false

/-- Does the pattern match at the current position or at a later one? -/
def matchFrom (re : List Re) : Bool → List Char → Bool
  | atStart, [] => matchHere re atStart []
  | atStart, c :: cs => matchHere re atStart (c :: cs) || matchFrom re false cs

/-- The method `Regexp.MatchString`: the text contains a match. -/
def MatchString (re : List Re) (s : String) : Bool := matchFrom re true s.data

/-- The function `IsValidAddress`. -/
def IsValidAddress (L : Lib) (iaddress : Iface) : Bool :=
  match iaddress with
  | Iface.string v => MatchString addressPattern v
  | Iface.address v => MatchString addressPattern (L.AddressHex v)
  | _ => false

/-- The letters of a hexadecimal rendering put in upper case at the positions
`upper` selects, from position `i` on (the step of `Address.Hex` that follows
the checksum hash). -/
def caseHex (upper : Nat → Bool) : Nat → List Char → List Char
  | _, [] => []
  | i, c :: cs =>
    (if decide ('9' < c) && upper i then Char.ofNat (c.toNat - 32) else c)
      :: caseHex upper (i + 1) cs

/-- The shape the specification gives for a valid address string: `0x` followed
by exactly 40 characters of `[0-9a-fA-F]`. -/
def isAddressString (s : String) : Prop :=
  ∃ rest : List Char, s.data = '0' :: 'x' :: rest ∧ rest.length = 40
    ∧ ∀ c ∈ rest, ('0' ≤ c ∧ c ≤ '9') ∨ ('a' ≤ c ∧ c ≤ 'f') ∨ ('A' ≤ c ∧ c ≤ 'F')

/-! ## `big.Float` and the unit conversions -/

/-- A finite, non-nil `big.Float`: the number `(-1)^neg * mant * 2^exp`. The
precision and rounding mode of a Go value only matter to the operation that
produces it and are arguments of `roundQuo` below. -/
structure BigFloat where
  neg : Bool
  mant : Nat
  exp : Int
deriving DecidableEq, Repr

/-- Numerator of the magnitude `mant * 2^exp` as a fraction of naturals. -/
def BigFloat.num (x : BigFloat) : Nat :=
  if 0 ≤ x.exp then x.mant * 2 ^ x.exp.toNat else x.mant

/-- Denominator of the magnitude `mant * 2^exp` as a fraction of naturals. -/
def BigFloat.den (x : BigFloat) : Nat :=
  if 0 ≤ x.exp then 1 else 2 ^ (-x.exp).toNat

/-- The quotient `a / b` rounded to the nearest integer, ties to even. -/
def rneDiv (a b : Nat) : Nat :=
  if 2 * (a % b) < b then a / b
  else if b < 2 * (a % b) then a / b + 1
  else if a / b % 2 = 0 then a / b
  else a / b + 1

/-- Number of binary digits of `n`, with `fuel` halving steps. -/
def bitLenAux : Nat → Nat → Nat
  | 0, _ => 0
  | fuel + 1, n => if n = 0 then 0 else bitLenAux fuel (n / 2) + 1

/-- Number of binary digits of `n`. -/
def bitLen (n : Nat) : Nat := bitLenAux n n

/-- The integer part of the binary logarithm of `a / b`, for positive `a` and
`b`: the difference of the bit lengths, or one less. -/
def floorLog2 (a b : Nat) : Int :=
  if bitLen b ≤ bitLen a then
    (if b * 2 ^ (bitLen a - bitLen b) ≤ a then ((bitLen a - bitLen b : Nat) : Int)
     else ((bitLen a - bitLen b : Nat) : Int) - 1)
  else
    (if b ≤ a * 2 ^ (bitLen b - bitLen a) then -((bitLen b - bitLen a : Nat) : Int)
     else -((bitLen b - bitLen a : Nat) : Int) - 1)

/-- The fraction `a / b` (with sign `neg`) rounded to a `big.Float` of precision
`prec` in mode `ToNearestEven`: the mantissa is the fraction scaled to `prec`
bits and rounded to the nearest integer, ties to even. This is what `SetInt` and
`Quo` store in a receiver of that precision and mode. -/
def roundQuo (prec : Nat) (neg : Bool) (a b : Nat) : BigFloat :=
  if a = 0 then ⟨neg, 0, 0⟩
  else if 0 ≤ floorLog2 a b - ((prec : Int) - 1) then
    ⟨neg, rneDiv a (b * 2 ^ (floorLog2 a b - ((prec : Int) - 1)).toNat),
      floorLog2 a b - ((prec : Int) - 1)⟩
  else
    ⟨neg, rneDiv (a * 2 ^ (-(floorLog2 a b - ((prec : Int) - 1))).toNat) b,
      floorLog2 a b - ((prec : Int) - 1)⟩

/-- The shared body of `WeiToEther`, `GweiToEther` and `WeiToGwei`:
`f.Quo(fWei.SetInt(wei), big.NewFloat(unit))` with both receivers at precision
236, mode `ToNearestEven`. -/
def quoByUnit (wei : Int) (unit : Nat) : BigFloat :=
  roundQuo 236 (roundQuo 236 (decide (wei < 0)) wei.natAbs 1).neg
    (roundQuo 236 (decide (wei < 0)) wei.natAbs 1).num
    ((roundQuo 236 (decide (wei < 0)) wei.natAbs 1).den * unit)

/-- The function `WeiToEther` (`params.Ether` is 10^18). -/
def WeiToEther (wei : Int) : BigFloat := quoByUnit wei (10 ^ 18)

/-- The function `GweiToEther` (`params.GWei` is 10^9). -/
def GweiToEther (wei : Int) : BigFloat := quoByUnit wei (10 ^ 9)

/-- The method `(*big.Float).Int(nil)`: truncation toward zero. -/
def BigFloat.truncInt (x : BigFloat) : Int :=
  if x.neg then -((x.num / x.den : Nat) : Int) else ((x.num / x.den : Nat) : Int)

/-- The `width` low decimal digits of `n`, most significant first. -/
def fixedDigits : Nat → Nat → List Char
  | 0, _ => []
  | width + 1, n => fixedDigits width (n / 10) ++ [Nat.digitChar (n % 10)]

/-- The text of `fmt.Sprintf("%.<prec>f", x)`: the value rounded to `prec`
decimals (ties to even), as sign, integer digits, point and `prec` digits. -/
def formatF (prec : Nat) (x : BigFloat) : List Char :=
  (if x.neg then ['-'] else [])
    ++ Nat.toDigits 10 (rneDiv (x.num * 10 ^ prec) x.den / 10 ^ prec)
    ++ (if prec > 0 then '.' :: fixedDigits prec (rneDiv (x.num * 10 ^ prec) x.den % 10 ^ prec)
        else [])

/-- The function `strings.Split(s, ".")`. -/
def splitDot : List Char → List (List Char)
  | [] => [[]]
  | c :: cs =>
    if c = '.' then [] :: splitDot cs
    else
      match splitDot cs with
      | [] => [[c]]
      | p :: ps => (c :: p) :: ps

/-- The index expression `parts[i]`; out of range is a panic. -/
def indexStr (parts : List (List Char)) (i : Nat) : Run (List Char) :=
  match parts.get? i with
  | some p => pure p
  | none => goPanic "index out of range"

/-- The method `(*big.Int).SetString(s, 10)`: an optional sign and at least one
decimal digit, nothing else; `none` is the nil result of a failed parse. -/
def bigSetString (s : List Char) : Option Int :=
  let digitsValue (ds : List Char) : Option Int :=
    if ds ≠ [] ∧ ds.all Char.isDigit = true then
      some (ds.foldl (fun acc c => 10 * acc + ((c.toNat - 48 : Nat) : Int)) 0)
    else none
  match s with
  | '+' :: ds => digitsValue ds
  | '-' :: ds => (digitsValue ds).map (fun v => -v)
  | ds => digitsValue ds

/-- The shared body of `EtherToWei` (`digits = 18`) and `EtherToGwei`
(`digits = 9`): the truncated integer part times `10^digits`, plus the digits
after the point of the `%.<digits>f` text, padded with zeros and parsed. -/
def etherToUnit (digits : Nat) (eth : BigFloat) : Run Int := do
  let truncInt : Int := eth.truncInt * 10 ^ digits
  let fracStr ← indexStr (splitDot (formatF digits eth)) 1
  let pad : List Char ← (if fracStr.length ≤ digits
    then Run.pure (List.replicate (digits - fracStr.length) '0')
    else goPanic "strings: negative Repeat count")
  match bigSetString (fracStr ++ pad) with
  | none => goPanic nilDeref
  | some fracInt => pure (truncInt + fracInt)

/-- The function `EtherToWei`. -/
def EtherToWei (eth : BigFloat) : Run Int := etherToUnit 18 eth

/-- The function `EtherToGwei`. -/
def EtherToGwei (eth : BigFloat) : Run Int := etherToUnit 9 eth

/-- The function `GweiToWei`. -/
def GweiToWei (wei : Int) : Run Int := EtherToWei (GweiToEther wei)

/-- Decimal digits without their trailing zeros. -/
def stripZeros (ds : List Char) : List Char :=
  (ds.reverse.dropWhile (fun c => c == '0')).reverse

/-- Number of zeros between the point and the first non-zero digit of the
fraction `n / d` below 1, with `fuel` steps. -/
def leadZeros : Nat → Nat → Nat → Nat
  | 0, _, _ => 0
  | fuel + 1, n, d => if d ≤ n * 10 then 0 else leadZeros fuel (n * 10) d + 1

/-- The decimal exponent of a positive fraction `n / d`: the `E` with
`10^(E-1) ≤ n / d < 10^E`. -/
def decExp (n d : Nat) : Int :=
  if d ≤ n then (((Nat.toDigits 10 (n / d)).length : Nat) : Int)
  else -((leadZeros d n d : Nat) : Int)

/-- The decimal of `ftoa.go` for the magnitude of `x` after `d.round(10)`: its
digits without trailing zeros, and its exponent (the value is `0.digits` times
ten to the exponent). Zero has no digits and exponent 0. -/
def decimal10 (x : BigFloat) : List Char × Int :=
  if x.num = 0 then ([], 0)
  else
    let sig : Nat :=
      if decExp x.num x.den ≤ 10 then rneDiv (x.num * 10 ^ (10 - decExp x.num x.den).toNat) x.den
      else rneDiv x.num (x.den * 10 ^ (decExp x.num x.den - 10).toNat)
    if sig = 10 ^ 10 then (['1'], decExp x.num x.den + 1)
    else (stripZeros (Nat.toDigits 10 sig), decExp x.num x.den)

/-- The function `fmtE` of `ftoa.go` for format `e`: one digit, the point and
`prec` more digits when `prec > 0`, then `e`, a sign and at least two exponent
digits. -/
def fmtE (prec : Nat) (mant : List Char) (dexp : Int) : List Char :=
  [mant.headD '0']
    ++ (if prec > 0 then
          '.' :: ((mant.drop 1).take prec
            ++ List.replicate (prec - ((mant.drop 1).take prec).length) '0')
        else [])
    ++ ['e']
    ++ (if (if mant = [] then (0 : Int) else dexp - 1) < 0 then ['-'] else ['+'])
    ++ (if (if mant = [] then (0 : Int) else dexp - 1).natAbs < 10 then ['0'] else [])
    ++ Nat.toDigits 10 (if mant = [] then (0 : Int) else dexp - 1).natAbs

/-- The function `fmtF` of `ftoa.go`: the integer digits padded with zeros (or a
single `0`), then the point and `prec` digits when `prec > 0`. -/
def fmtF (prec : Nat) (mant : List Char) (dexp : Int) : List Char :=
  (if 0 < dexp then
      mant.take dexp.toNat ++ List.replicate (dexp.toNat - (mant.take dexp.toNat).length) '0'
    else ['0'])
    ++ (if prec > 0 then
          '.' :: (List.range prec).map (fun i =>
            if 0 ≤ dexp + (i : Int) then mant.getD (dexp + (i : Int)).toNat '0' else '0')
        else [])

/-- The method `(*big.Float).String`, that is `Text('g', 10)`: ten significant
digits; format `e` when the decimal exponent is below -4 or not below the number
of digits asked for, format `f` otherwise. -/
def BigFloat.String (x : BigFloat) : List Char :=
  let mant := (decimal10 x).1
  let dexp := (decimal10 x).2
  let eprec : Int := if 10 > mant.length ∧ (mant.length : Int) ≥ dexp then mant.length else 10
  (if x.neg then ['-'] else [])
    ++ (if dexp - 1 < -4 ∨ dexp - 1 ≥ eprec then fmtE (min 10 mant.length - 1) mant dexp
        else fmtF (min 10 mant.length - dexp).toNat mant dexp)

/-- The function `WeiToGwei`: the quotient by 10^9 at precision 236, printed by
`String` and parsed back by `SetString`; `none` is the nil pointer returned when
the text is not an integer literal. -/
def WeiToGwei (wei : Int) : Option Int :=
  bigSetString (quoByUnit wei (10 ^ 9)).String

/-! ## Event delivery loops -/

/-- A `types.Log` as far as the delivery loop reads it. -/
structure Log where
  Data : Bytes
  TxHash : String
  BlockNumber : Nat
deriving DecidableEq, Repr

/-- What one `select` of a per-contract goroutine of `ListenBridgesEventsV2`
receives: a value from `subs[i].Err()` (nil once that channel is closed), or a
log entry from `logs[i]`. -/
inductive Delivery where
  | subErr (err : Option String)
  | log (vLog : Log)
deriving DecidableEq, Repr

/-- The item of a send `out <- logs`. -/
inductive OutItem where
  | logs
deriving DecidableEq, Repr

/-- Whether the goroutine is still inside its `for` loop. -/
inductive LoopState where
  | running
  | exited
deriving DecidableEq, Repr

/-- One iteration of the loop `for { select { ... } }` (lines 652-669): what it
sends on `out` and the state it is in afterwards. Both cases print and send
`logs`; neither has a `return` or a `break`. A send is taken to complete, that
is, the consumer of `out` receives. -/
def deliveryStep (d : Delivery) : List OutItem × LoopState :=
  match d with
  | Delivery.subErr _ => ([OutItem.logs], LoopState.running)
  | Delivery.log _ => ([OutItem.logs], LoopState.running)

/-- The goroutine run on a sequence of deliveries: everything it sends on `out`,
and its final state. -/
def deliveryLoop : LoopState → List Delivery → List OutItem × LoopState
  | st, [] => ([], st)
  | LoopState.exited, _ :: _ => ([], LoopState.exited)
  | LoopState.running, d :: ds =>
    ((deliveryStep d).1 ++ (deliveryLoop (deliveryStep d).2 ds).1,
      (deliveryLoop (deliveryStep d).2 ds).2)

/-- The node `fakeClient`, except that it rejects the gas-price query. -/
def nodeRejectingGasPrice : Client :=
  { fakeClient with SuggestGasPrice := Except.error "method not available" }

/-! ## Lemmas on traces -/

@[simp] theorem Run.bind_mk_ret {α β : Type} (a : α) (l : List Event) (f : α → Run β) :
    Run.bind ⟨Res.ret a, l⟩ f = ⟨(f a).res, l ++ (f a).log⟩ := rfl

@[simp] theorem Run.bind_mk_panic {α β : Type} (m : String) (l : List Event) (f : α → Run β) :
    Run.bind ⟨Res.panic m, l⟩ f = ⟨Res.panic m, l⟩ := rfl

@[simp] theorem Run.bind_mk_fatal {α β : Type} (m : String) (l : List Event) (f : α → Run β) :
    Run.bind ⟨Res.fatal m, l⟩ f = ⟨Res.fatal m, l⟩ := rfl

@[simp] theorem run_bind_eq {α β : Type} (x : Run α) (f : α → Run β) :
    x >>= f = Run.bind x f := rfl

@[simp] theorem run_pure_eq {α : Type} (a : α) : (pure a : Run α) = ⟨Res.ret a, []⟩ := rfl

@[simp] theorem run_pure_def {α : Type} (a : α) : Run.pure a = ⟨Res.ret a, []⟩ := rfl

@[simp] theorem builtTxs_append (l₁ l₂ : List Event) :
    builtTxs (l₁ ++ l₂) = builtTxs l₁ ++ builtTxs l₂ := by
  induction l₁ with
  | nil => rfl
  | cons e es ih => cases e <;> simp [builtTxs, ih]

@[simp] theorem sentTxs_append (l₁ l₂ : List Event) :
    sentTxs (l₁ ++ l₂) = sentTxs l₁ ++ sentTxs l₂ := by
  induction l₁ with
  | nil => rfl
  | cons e es ih =>
    cases e with
    | NewTx tx => simp [sentTxs, ih]
    | rpc via call => cases call <;> simp [sentTxs, ih]

@[simp] theorem rpcCalls_append (l₁ l₂ : List Event) :
    rpcCalls (l₁ ++ l₂) = rpcCalls l₁ ++ rpcCalls l₂ := by
  induction l₁ with
  | nil => rfl
  | cons e es ih => cases e <;> simp [rpcCalls, ih]

theorem Run.bind_log {α β : Type} (x : Run α) (f : α → Run β) :
    (Run.bind x f).log = x.log ++ (match x.res with
      | Res.ret a => (f a).log
      | _ => []) := by
  rcases x with ⟨r, l⟩
  cases r <;> simp [Run.bind]

theorem Run.bind_silent_log {α β : Type} (x : Run α) (f : α → Run β)
    (h : ∀ a, (f a).log = []) : (Run.bind x f).log = x.log := by
  rcases x with ⟨r, l⟩
  cases r <;> simp [Run.bind, h]

theorem PendingNonce_eq (w : Web3GolangHelper) (conn : Conn) (c : Client) (a : Address) (n : Nat)
    (hc : selectClient w = ⟨Res.ret (conn, c), []⟩) (ha : w.FromAddress = some a)
    (hn : c.PendingNonceAt a = Except.ok n) :
    PendingNonce w = ⟨Res.ret (toInt64 n), [Event.rpc conn (Rpc.PendingNonceAt a)]⟩ := by
  simp [PendingNonce, hc, ha, hn, emit]

/-! ## The blocks of `SignAndSendTransaction` -/

theorem resolveGasPrice_nil (w : Web3GolangHelper) (conn : Conn) (c : Client)
    (hc : selectClient w = ⟨Res.ret (conn, c), []⟩) :
    resolveGasPrice w Iface.nil
      = ⟨Res.ret c.SuggestGasPrice.toOption, [Event.rpc conn Rpc.SuggestGasPrice]⟩ := by
  simp [resolveGasPrice, hc, emit, logLevel]

theorem resolveGasPrice_bigInt (w : Web3GolangHelper) (conn : Conn) (c : Client) (p : Option Int)
    (hc : selectClient w = ⟨Res.ret (conn, c), []⟩) :
    resolveGasPrice w (Iface.bigInt p) = ⟨Res.ret p, [Event.rpc conn Rpc.SuggestGasPrice]⟩ := by
  simp [resolveGasPrice, hc, emit, logLevel]

/-- Whatever the override is, the price block makes exactly one call, the
`SuggestGasPrice` query. -/
theorem resolveGasPrice_log (w : Web3GolangHelper) (conn : Conn) (c : Client) (x : Iface)
    (hc : selectClient w = ⟨Res.ret (conn, c), []⟩) :
    (resolveGasPrice w x).log = [Event.rpc conn Rpc.SuggestGasPrice] := by
  cases x <;> simp [resolveGasPrice, hc, emit, logLevel, goPanic]

theorem resolveGasLimit_uint64 (L : Lib) (w : Web3GolangHelper) (dest : String) (data : Bytes)
    (g : Nat) : resolveGasLimit L w dest data (Iface.uint64 g) = ⟨Res.ret g, []⟩ := by
  simp [resolveGasLimit]

theorem resolveGasLimit_nil_empty (L : Lib) (w : Web3GolangHelper) (dest : String) :
    resolveGasLimit L w dest [] Iface.nil = ⟨Res.ret defaultGasLimit, []⟩ := by
  simp [resolveGasLimit]

theorem EstimateGas_eq (L : Lib) (w : Web3GolangHelper) (dest : String) (data : Bytes)
    (conn : Conn) (c : Client) (hc : selectClient w = ⟨Res.ret (conn, c), []⟩) :
    EstimateGas L w dest data
      = ⟨Res.ret (match c.EstimateGas (L.HexToAddress dest) data with
          | Except.ok e => e
          | Except.error _ => 0),
         [Event.rpc conn (Rpc.EstimateGas (L.HexToAddress dest) data)]⟩ := by
  cases h : c.EstimateGas (L.HexToAddress dest) data <;> simp [EstimateGas, hc, emit, h]

theorem resolveGasLimit_nil_data (L : Lib) (w : Web3GolangHelper) (dest : String) (data : Bytes)
    (conn : Conn) (c : Client) (hc : selectClient w = ⟨Res.ret (conn, c), []⟩)
    (hd : data ≠ []) :
    resolveGasLimit L w dest data Iface.nil
      = ⟨Res.ret (match c.EstimateGas (L.HexToAddress dest) data with
          | Except.ok e => e
          | Except.error _ => 0),
         [Event.rpc conn (Rpc.EstimateGas (L.HexToAddress dest) data)]⟩ := by
  have hlen : data.length > 0 := List.length_pos.mpr hd
  simp [resolveGasLimit, hlen, EstimateGas_eq L w dest data conn c hc]

/-- The three ways `SignTx` can end: an error value without a completed
signature, a signed transaction, or an abort inside `ChainId`. In each case its
calls are at most the `NetworkID` query. -/
theorem SignTx_cases (L : Lib) (w : Web3GolangHelper) (tx : LegacyTx) :
    (∃ e l, SignTx L w tx = ⟨Res.ret (Except.error e), l⟩ ∧ builtTxs l = [] ∧ sentTxs l = [])
      ∨ (∃ d cid hc, L.HexToECDSA w.plainPrivateKey = Except.ok d ∧ w.httpClient = some hc
          ∧ hc.NetworkID = Except.ok cid ∧ L.SignTxErr tx cid d = none
          ∧ SignTx L w tx = ⟨Res.ret (Except.ok ⟨tx, cid, d⟩), [Event.rpc Conn.http Rpc.NetworkID]⟩)
      ∨ (∃ r l, SignTx L w tx = ⟨r, l⟩ ∧ (∀ v, r ≠ Res.ret v) ∧ builtTxs l = [] ∧ sentTxs l = []) := by
  unfold SignTx ChainId
  cases hk : L.HexToECDSA w.plainPrivateKey with
  | error e => exact Or.inl ⟨e, [], by simp, rfl, rfl⟩
  | ok d =>
    cases hh : w.httpClient with
    | none => exact Or.inr (Or.inr ⟨Res.panic nilDeref, [], by simp [goPanic], by simp, rfl, rfl⟩)
    | some hc =>
      cases hn : hc.NetworkID with
      | error e =>
        exact Or.inr (Or.inr ⟨Res.fatal e, [Event.rpc Conn.http Rpc.NetworkID],
          by simp [emit, logFatal, hn], by simp, rfl, rfl⟩)
      | ok cid =>
        cases hs : L.SignTxErr tx cid d with
        | some e =>
          exact Or.inl ⟨e, [Event.rpc Conn.http Rpc.NetworkID], by simp [emit, hn, hs], rfl, rfl⟩
        | none =>
          exact Or.inr (Or.inl ⟨d, cid, hc, rfl, rfl, hn, hs, by simp [emit, hn, hs]⟩)

/-- What `SendTransaction` and the rendering of the signed transaction leave as
the triple returned by `SignAndSendTransaction`. -/
theorem signAndBroadcast_signed (L : Lib) (w : Web3GolangHelper) (tx : LegacyTx)
    (nonce : Option Int) (stx : SignedTx) (l : List Event) (conn : Conn) (c : Client)
    (hs : SignTx L w tx = ⟨Res.ret (Except.ok stx), l⟩)
    (hc : selectClient w = ⟨Res.ret (conn, c), []⟩) :
    signAndBroadcast L w tx nonce
      = ⟨Res.ret (match c.SendTransaction stx with
          | some sendTxErr => ("", some 0, some sendTxErr)
          | none =>
            match L.MarshalJSONErr stx with
            | some e => ("", some 0, some e)
            | none => (L.TxHashHex stx, nonce, none)),
         l ++ [Event.rpc conn (Rpc.SendTransaction stx)]⟩ := by
  cases h1 : c.SendTransaction stx <;> cases h2 : L.MarshalJSONErr stx <;>
    simp [signAndBroadcast, hs, hc, emit, logLevel, h1, h2]

theorem signAndBroadcast_sign_error (L : Lib) (w : Web3GolangHelper) (tx : LegacyTx)
    (nonce : Option Int) (e : String) (l : List Event)
    (hs : SignTx L w tx = ⟨Res.ret (Except.error e), l⟩) :
    signAndBroadcast L w tx nonce = ⟨Res.ret ("", some 0, some e), l⟩ := by
  simp [signAndBroadcast, hs]

theorem signAndBroadcast_abort (L : Lib) (w : Web3GolangHelper) (tx : LegacyTx)
    (nonce : Option Int) (r : Res (Except String SignedTx)) (l : List Event)
    (hs : SignTx L w tx = ⟨r, l⟩) (hr : ∀ v, r ≠ Res.ret v) :
    (signAndBroadcast L w tx nonce).log = l ∧ ∀ v, (signAndBroadcast L w tx nonce).res ≠ Res.ret v := by
  cases r with
  | ret v => exact absurd rfl (hr v)
  | panic m => simp [signAndBroadcast, hs]
  | fatal m => simp [signAndBroadcast, hs]

/-- Signing and broadcasting builds no further transaction. -/
theorem signAndBroadcast_builtTxs (L : Lib) (w : Web3GolangHelper) (tx : LegacyTx)
    (nonce : Option Int) : builtTxs (signAndBroadcast L w tx nonce).log = [] := by
  rcases SignTx_cases L w tx with ⟨e, l, hs, hb, _⟩ | ⟨d, cid, hc, _, hh, _, _, hs⟩ | ⟨r, l, hs, hr, hb, _⟩
  · rw [signAndBroadcast_sign_error L w tx nonce e l hs]
    exact hb
  · have hsel : ∃ conn c, selectClient w = ⟨Res.ret (conn, c), []⟩ := by
      cases hws : w.wsClient with
      | some c => exact ⟨Conn.ws, c, by simp [selectClient, hws]⟩
      | none => exact ⟨Conn.http, hc, by simp [selectClient, hws, hh]⟩
    obtain ⟨conn, c, hsel⟩ := hsel
    rw [signAndBroadcast_signed L w tx nonce _ _ conn c hs hsel]
    simp [builtTxs]
  · rw [(signAndBroadcast_abort L w tx nonce r l hs hr).1]
    exact hb

/-- The run of `SignAndSendTransaction` once the price and limit blocks have
returned and the nonce pointer is not nil: one `NewTx`, then sign and broadcast. -/
theorem SignAndSendTransaction_resolved (L : Lib) (w : Web3GolangHelper) (dest : String)
    (value : Option Int) (data : Bytes) (n : Int) (cgp cgl : Iface)
    (price : Option Int) (gas : Nat) (lp ll : List Event)
    (hp : resolveGasPrice w cgp = ⟨Res.ret price, lp⟩)
    (hl : resolveGasLimit L w dest data cgl = ⟨Res.ret gas, ll⟩) :
    SignAndSendTransaction L w dest value data (some n) cgp cgl
      = ⟨(signAndBroadcast L w ⟨Uint64 n, price, gas, L.HexToAddress dest, value, data⟩
            (some n)).res,
         lp ++ (ll ++ Event.NewTx ⟨Uint64 n, price, gas, L.HexToAddress dest, value, data⟩
            :: (signAndBroadcast L w ⟨Uint64 n, price, gas, L.HexToAddress dest, value, data⟩
                  (some n)).log)⟩ := by
  simp [SignAndSendTransaction, hp, hl, emit]

/-- The method `selectClient` returns a connection without calling anything, or
it ends in `log.Fatal`. -/
theorem selectClient_cases (w : Web3GolangHelper) :
    (∃ conn c, selectClient w = ⟨Res.ret (conn, c), []⟩)
      ∨ (∃ m, selectClient w = ⟨Res.fatal m, []⟩) := by
  unfold selectClient
  cases w.wsClient with
  | some c => exact Or.inl ⟨Conn.ws, c, rfl⟩
  | none =>
    cases w.httpClient with
    | some c => exact Or.inl ⟨Conn.http, c, rfl⟩
    | none => exact Or.inr ⟨_, rfl⟩

theorem mem_builtTxs (tx : LegacyTx) (l : List Event) :
    tx ∈ builtTxs l ↔ Event.NewTx tx ∈ l := by
  induction l with
  | nil => simp [builtTxs]
  | cons e es ih => cases e <;> simp [builtTxs, ih]

theorem mem_sentTxs (stx : SignedTx) (l : List Event) :
    stx ∈ sentTxs l ↔ ∃ conn, Event.rpc conn (Rpc.SendTransaction stx) ∈ l := by
  induction l with
  | nil => simp [sentTxs]
  | cons e es ih =>
    cases e with
    | NewTx tx => simp [sentTxs, ih]
    | rpc via call =>
      cases call <;> simp [sentTxs, ih]
      constructor
      · rintro (h | ⟨conn, h⟩)
        · exact ⟨via, Or.inl ⟨rfl, h⟩⟩
        · exact ⟨conn, Or.inr h⟩
      · rintro ⟨conn, ⟨_, h⟩ | h⟩
        · exact Or.inl h
        · exact Or.inr ⟨conn, h⟩

/-- The price block builds and broadcasts nothing. -/
theorem resolveGasPrice_quiet (w : Web3GolangHelper) (x : Iface) :
    builtTxs (resolveGasPrice w x).log = [] ∧ sentTxs (resolveGasPrice w x).log = [] := by
  rcases selectClient_cases w with ⟨conn, c, hc⟩ | ⟨m, hc⟩
  · rw [resolveGasPrice_log w conn c x hc]
    exact ⟨rfl, rfl⟩
  · simp [resolveGasPrice, hc, builtTxs, sentTxs]

/-- The limit block builds and broadcasts nothing. -/
theorem resolveGasLimit_quiet (L : Lib) (w : Web3GolangHelper) (dest : String) (data : Bytes)
    (x : Iface) :
    builtTxs (resolveGasLimit L w dest data x).log = []
      ∧ sentTxs (resolveGasLimit L w dest data x).log = [] := by
  have hest : builtTxs (EstimateGas L w dest data).log = []
      ∧ sentTxs (EstimateGas L w dest data).log = [] := by
    rcases selectClient_cases w with ⟨conn, c, hc⟩ | ⟨m, hc⟩
    · rw [EstimateGas_eq L w dest data conn c hc]
      exact ⟨rfl, rfl⟩
    · simp [EstimateGas, hc, builtTxs, sentTxs]
  cases x <;> simp [resolveGasLimit, goPanic, builtTxs, sentTxs]
  split
  · exact hest
  · simp [builtTxs, sentTxs]

/-- The two ways a run of `SignAndSendTransaction` can go: both blocks return
and the nonce pointer is not nil, so that one transaction is built and handed to
`signAndBroadcast`; or the run aborts before building anything. -/
theorem SignAndSendTransaction_cases (L : Lib) (w : Web3GolangHelper) (dest : String)
    (value : Option Int) (data : Bytes) (nonce : Option Int) (cgp cgl : Iface) :
    (∃ n price gas lp ll, nonce = some n
        ∧ builtTxs lp = [] ∧ sentTxs lp = [] ∧ builtTxs ll = [] ∧ sentTxs ll = []
        ∧ SignAndSendTransaction L w dest value data nonce cgp cgl
          = ⟨(signAndBroadcast L w ⟨Uint64 n, price, gas, L.HexToAddress dest, value, data⟩
                (some n)).res,
             lp ++ (ll ++ Event.NewTx ⟨Uint64 n, price, gas, L.HexToAddress dest, value, data⟩
              :: (signAndBroadcast L w ⟨Uint64 n, price, gas, L.HexToAddress dest, value, data⟩
                    (some n)).log)⟩)
      ∨ ((∀ v, (SignAndSendTransaction L w dest value data nonce cgp cgl).res ≠ Res.ret v)
        ∧ builtTxs (SignAndSendTransaction L w dest value data nonce cgp cgl).log = []
        ∧ sentTxs (SignAndSendTransaction L w dest value data nonce cgp cgl).log = []) := by
  have hq1 := resolveGasPrice_quiet w cgp
  have hq2 := resolveGasLimit_quiet L w dest data cgl
  rcases hp : resolveGasPrice w cgp with ⟨rp, lp⟩
  rcases hl : resolveGasLimit L w dest data cgl with ⟨rl, ll⟩
  rw [hp] at hq1
  rw [hl] at hq2
  simp only at hq1 hq2
  cases rp with
  | ret price =>
    cases rl with
    | ret gas =>
      cases nonce with
      | some n =>
        exact Or.inl ⟨n, price, gas, lp, ll, rfl, hq1.1, hq1.2, hq2.1, hq2.2,
          SignAndSendTransaction_resolved L w dest value data n cgp cgl price gas lp ll hp hl⟩
      | none =>
        right
        simp [SignAndSendTransaction, hp, hl, goPanic, hq1, hq2]
    | panic m =>
      right
      simp [SignAndSendTransaction, hp, hl, hq1, hq2]
    | fatal m =>
      right
      simp [SignAndSendTransaction, hp, hl, hq1, hq2]
  | panic m =>
    right
    simp [SignAndSendTransaction, hp, hq1]
  | fatal m =>
    right
    simp [SignAndSendTransaction, hp, hq1]

/-- Every signed transaction that `signAndBroadcast` hands to `SendTransaction`
is a signature of the transaction it was given, and the node's answer to it
decides the returned triple. -/
theorem signAndBroadcast_sent (L : Lib) (w : Web3GolangHelper) (tx : LegacyTx)
    (nonce : Option Int) (conn : Conn) (c : Client)
    (hc : selectClient w = ⟨Res.ret (conn, c), []⟩) (stx : SignedTx)
    (hmem : stx ∈ sentTxs (signAndBroadcast L w tx nonce).log) :
    stx.tx = tx
      ∧ (signAndBroadcast L w tx nonce).res
        = Res.ret (match c.SendTransaction stx with
          | some sendTxErr => ("", some 0, some sendTxErr)
          | none =>
            match L.MarshalJSONErr stx with
            | some e => ("", some 0, some e)
            | none => (L.TxHashHex stx, nonce, none)) := by
  rcases SignTx_cases L w tx with ⟨e, l, hs, _, hb⟩ | ⟨d, cid, hcl, _, _, _, _, hs⟩ | ⟨r, l, hs, hr, _, hb⟩
  · rw [signAndBroadcast_sign_error L w tx nonce e l hs] at hmem
    simp [hb] at hmem
  · rw [signAndBroadcast_signed L w tx nonce _ _ conn c hs hc] at hmem ⊢
    simp [sentTxs] at hmem
    subst hmem
    exact ⟨rfl, rfl⟩
  · rw [(signAndBroadcast_abort L w tx nonce r l hs hr).1] at hmem
    simp [hb] at hmem

/-- The method `SignTx` builds and broadcasts nothing. -/
theorem SignTx_quiet (L : Lib) (w : Web3GolangHelper) (tx : LegacyTx) :
    builtTxs (SignTx L w tx).log = [] ∧ sentTxs (SignTx L w tx).log = [] := by
  rcases SignTx_cases L w tx with ⟨e, l, hs, hb, hb2⟩ | ⟨d, cid, hcl, _, _, _, _, hs⟩ | ⟨r, l, hs, _, hb, hb2⟩
  · rw [hs]
    exact ⟨hb, hb2⟩
  · rw [hs]
    exact ⟨rfl, rfl⟩
  · rw [hs]
    exact ⟨hb, hb2⟩

/-- A string amount never aborts `ToWei`, and `ToWei` calls nothing. -/
theorem ToWei_string_ret (L : Lib) (s : String) (decimals : Nat) :
    ∃ v, ToWei L (Iface.string s) decimals = ⟨Res.ret v, []⟩ := by
  unfold ToWei
  cases h : L.NewFromString s <;>
    simp only [h, run_bind_eq, run_pure_def, Run.bind_mk_ret, run_pure_eq] <;>
    split <;> exact ⟨_, rfl⟩

/-- On a connected helper with an account, `PendingNonce` begins with the
`PendingNonceAt` query for `FromAddress`. -/
theorem PendingNonce_log (w : Web3GolangHelper) (conn : Conn) (c : Client) (a : Address)
    (hc : selectClient w = ⟨Res.ret (conn, c), []⟩) (ha : w.FromAddress = some a) :
    (PendingNonce w).log = [Event.rpc conn (Rpc.PendingNonceAt a)] := by
  cases hn : c.PendingNonceAt a <;> simp [PendingNonce, hc, ha, hn, emit, logFatal]

/-! ## Cancel / replace -/

/-- C1: on a node that suggests gas price `p`, `CancelTx` with multiplier `m`
builds no replacement transaction at all: the bumped price `p * m` is passed as a
`*big.Int` in the gas-limit position of `SignAndSendTransaction`, whose
assertion to `uint64` panics after two `SuggestGasPrice` calls. In particular
for `p = 5`, `m = 2` no transaction with gas price 10 is built. -/
theorem CancelTx_builds_no_replacement (L : Lib) (p m : Int) (dest : String)
    (nonce : Option Int) :
    CancelTx L (fakeHelper (nodeSuggesting p)) dest nonce m
        = ⟨Res.panic badAssert,
           [Event.rpc Conn.ws Rpc.SuggestGasPrice, Event.rpc Conn.ws Rpc.SuggestGasPrice]⟩
      ∧ builtTxs (CancelTx L (fakeHelper (nodeSuggesting 5)) dest nonce 2).log = [] := by
  constructor <;>
  simp [CancelTx, SignAndSendTransaction, resolveGasPrice, resolveGasLimit, selectClient,
    fakeHelper, nodeSuggesting, fakeClient, emit, goPanic, ToWei, Except.toOption, logLevel, builtTxs]

/-- C2: for every helper, recipient, nonce and multiplier, `CancelTx` never
returns: it ends in a panic or in `log.Fatal`, and it builds and broadcasts no
transaction, whatever the node would accept. -/
theorem CancelTx_never_returns (L : Lib) (w : Web3GolangHelper) (dest : String)
    (nonce : Option Int) (m : Int) :
    (∀ r, (CancelTx L w dest nonce m).res ≠ Res.ret r)
      ∧ builtTxs (CancelTx L w dest nonce m).log = []
      ∧ sentTxs (CancelTx L w dest nonce m).log = [] := by
  rcases w with ⟨key, http, ws, addr⟩
  cases ws with
  | some c =>
    cases hp : c.SuggestGasPrice <;>
    simp [CancelTx, SignAndSendTransaction, resolveGasPrice, resolveGasLimit, selectClient, emit,
      goPanic, ToWei,
      Except.toOption, logLevel, builtTxs, sentTxs, hp]
  | none =>
    cases http with
    | some c =>
      cases hp : c.SuggestGasPrice <;>
      simp [CancelTx, SignAndSendTransaction, resolveGasPrice, resolveGasLimit, selectClient, emit,
      goPanic, ToWei,
        Except.toOption, logLevel, builtTxs, sentTxs, hp]
    | none =>
      simp [CancelTx, selectClient, logFatal, builtTxs, sentTxs]

/-! ## The active account -/

/-- The constructor establishes the account invariant whenever it returns. -/
theorem NewWeb3GolangHelper_inv (L : Lib) (rpcUrl wsUrl key : String) (w : Web3GolangHelper)
    (h : (NewWeb3GolangHelper L rpcUrl wsUrl key).res = Res.ret w) : KeyAddressInv L w = true := by
  unfold NewWeb3GolangHelper NewWsWeb3Client NewHttpWeb3Client
    GeneratePublicAddressFromPrivateKey at h
  cases hp : L.ParseRequestURI wsUrl with
  | some e => simp [hp, logFatal] at h
  | none =>
    cases hd : L.Dial wsUrl with
    | error e => simp [hp, hd, logFatal] at h
    | ok c1 =>
      cases hb1 : c1.BlockNumber with
      | error e => simp [hp, hd, hb1, logFatal, emit] at h
      | ok b1 =>
        cases hd2 : L.Dial rpcUrl with
        | error e => simp [hp, hd, hb1, hd2, logFatal, emit] at h
        | ok c2 =>
          cases hb2 : c2.BlockNumber with
          | error e => simp [hp, hd, hb1, hd2, hb2, logFatal, emit] at h
          | ok b2 =>
            cases hk : L.HexToECDSA key with
            | error e => simp [hp, hd, hb1, hd2, hb2, hk, logFatal, emit] at h
            | ok d =>
              simp [hp, hd, hb1, hd2, hb2, hk, logFatal, emit] at h
              subst h
              simp [KeyAddressInv, hk]

/-- Storing a valid key and then switching to the same key restores the account
invariant. -/
theorem SetPrivateKey_then_SwitchAccount_inv (L : Lib) (w : Web3GolangHelper) (k : String)
    (d : Nat) (hk : L.HexToECDSA k = Except.ok d) :
    ∃ w2, SwitchAccount L (SetPrivateKey w k) k = ⟨Res.ret w2, []⟩
      ∧ KeyAddressInv L w2 = true := by
  refine ⟨{ SetPrivateKey w k with FromAddress := some (L.PubkeyToAddress d) }, ?_, ?_⟩
  · simp [SwitchAccount, hk]
  · simp [KeyAddressInv, SetPrivateKey, hk]

/-- C3: the account invariant is not preserved. For a helper that satisfies it
with key scalar `d`, and a valid key `k` of a different address,
`SwitchAccount k` returns a helper whose `FromAddress` is the address of `k`
while `plainPrivateKey`, and with it every `SignTx`, is unchanged; and
`SetPrivateKey k` stores `k` while `FromAddress` stays the old address. Both
results violate the invariant. -/
theorem SwitchAccount_and_SetPrivateKey_break_invariant (L : Lib) (w : Web3GolangHelper)
    (k : String) (d d2 : Nat)
    (hw : L.HexToECDSA w.plainPrivateKey = Except.ok d)
    (hk : L.HexToECDSA k = Except.ok d2)
    (hne : L.PubkeyToAddress d ≠ L.PubkeyToAddress d2)
    (hinv : KeyAddressInv L w = true) :
    (∃ w2, SwitchAccount L w k = ⟨Res.ret w2, []⟩
        ∧ w2.plainPrivateKey = w.plainPrivateKey
        ∧ w2.FromAddress = some (L.PubkeyToAddress d2)
        ∧ (∀ tx, SignTx L w2 tx = SignTx L w tx)
        ∧ KeyAddressInv L w2 = false)
      ∧ (SetPrivateKey w k).plainPrivateKey = k
      ∧ (SetPrivateKey w k).FromAddress = w.FromAddress
      ∧ KeyAddressInv L (SetPrivateKey w k) = false := by
  have hfrom : w.FromAddress = some (L.PubkeyToAddress d) := by
    simpa [KeyAddressInv, hw] using hinv
  refine ⟨⟨{ w with FromAddress := some (L.PubkeyToAddress d2) }, ?_, rfl, rfl, ?_, ?_⟩,
    rfl, rfl, ?_⟩
  · simp [SwitchAccount, hk]
  · intro tx
    rfl
  · simp [KeyAddressInv, hw]
    exact fun h => hne h.symm
  · simp [KeyAddressInv, SetPrivateKey, hk, hfrom]
    exact hne

set_option maxRecDepth 100000 in
/-- Witness for C3: the helper of main.go's key, switched to a second key. -/
theorem SwitchAccount_and_SetPrivateKey_break_invariant_witness :
    fakeLib.HexToECDSA (fakeHelper fakeClient).plainPrivateKey
        = Except.ok (hexValue mainKey.data)
      ∧ fakeLib.HexToECDSA otherKey = Except.ok 1
      ∧ fakeLib.PubkeyToAddress (hexValue mainKey.data) ≠ fakeLib.PubkeyToAddress 1
      ∧ KeyAddressInv fakeLib (fakeHelper fakeClient) = true
      ∧ ((∃ w2, SwitchAccount fakeLib (fakeHelper fakeClient) otherKey = ⟨Res.ret w2, []⟩
            ∧ w2.plainPrivateKey = (fakeHelper fakeClient).plainPrivateKey
            ∧ w2.FromAddress = some (fakeLib.PubkeyToAddress 1)
            ∧ (∀ tx, SignTx fakeLib w2 tx = SignTx fakeLib (fakeHelper fakeClient) tx)
            ∧ KeyAddressInv fakeLib w2 = false)
          ∧ (SetPrivateKey (fakeHelper fakeClient) otherKey).plainPrivateKey = otherKey
          ∧ (SetPrivateKey (fakeHelper fakeClient) otherKey).FromAddress
              = (fakeHelper fakeClient).FromAddress
          ∧ KeyAddressInv fakeLib (SetPrivateKey (fakeHelper fakeClient) otherKey) = false) :=
  ⟨rfl, rfl, by decide, rfl,
    SwitchAccount_and_SetPrivateKey_break_invariant fakeLib (fakeHelper fakeClient) otherKey
      (hexValue mainKey.data) 1 rfl rfl (by decide) rfl⟩

/-! ## Swap-buy -/

/-- A `*big.Int` is none of the dynamic types `ToWei` converts: the result is 0. -/
theorem ToWei_bigInt (L : Lib) (v : Option Int) (decimals : Nat) :
    ToWei L (Iface.bigInt v) decimals = ⟨Res.ret 0, []⟩ := by
  simp [ToWei]

/-- C4: whatever amount `v` is passed, the one transaction `BuyV2` builds (on a
connected helper with an account whose pending nonce the node reports) carries
native value 0, not `v`: the amount goes through `ToWei`, which has no case for
`*big.Int` and returns 0. -/
theorem BuyV2_value_is_zero (L : Lib) (w : Web3GolangHelper) (now v : Int)
    (tokenAddress : String) (conn : Conn) (c : Client) (a : Address) (n : Nat)
    (hc : selectClient w = ⟨Res.ret (conn, c), []⟩)
    (ha : w.FromAddress = some a)
    (hn : c.PendingNonceAt a = Except.ok n) :
    ToWei L (Iface.bigInt (some v)) 18 = ⟨Res.ret 0, []⟩
      ∧ (builtTxs (BuyV2 L w now tokenAddress (some v)).log).map LegacyTx.Value = [some 0] := by
  refine ⟨ToWei_bigInt L _ _, ?_⟩
  simp only [BuyV2, run_bind_eq, run_pure_def, Run.bind_mk_ret, ToWei_bigInt,
    EstimateGas_eq L w _ _ conn c hc, PendingNonce_eq w conn c a n hc ha hn]
  rw [SignAndSendTransaction_resolved L w _ _ _ _ _ _ _ _ _ _
    (resolveGasPrice_nil w conn c hc) (resolveGasLimit_uint64 L w _ _ _)]
  rw [Run.bind_silent_log _ _ (fun _ => rfl)]
  simp [builtTxs, signAndBroadcast_builtTxs]

set_option maxRecDepth 100000 in
/-- Witness for C4: a buy of 10^17 wei through a node that answers every call. -/
theorem BuyV2_value_is_zero_witness :
    selectClient (fakeHelper fakeClient) = ⟨Res.ret (Conn.ws, fakeClient), []⟩
      ∧ (fakeHelper fakeClient).FromAddress
          = some (fakeLib.PubkeyToAddress (hexValue mainKey.data))
      ∧ fakeClient.PendingNonceAt (fakeLib.PubkeyToAddress (hexValue mainKey.data)) = Except.ok 7
      ∧ ToWei fakeLib (Iface.bigInt (some 100000000000000000)) 18 = ⟨Res.ret 0, []⟩
      ∧ (builtTxs (BuyV2 fakeLib (fakeHelper fakeClient) 1700000000
            "0x49c3Ea488e4F57e91b0aB002A16107f2A5EAD07d" (some 100000000000000000)).log).map
          LegacyTx.Value = [some 0] :=
  ⟨rfl, rfl, rfl,
    BuyV2_value_is_zero fakeLib (fakeHelper fakeClient) 1700000000 100000000000000000
      "0x49c3Ea488e4F57e91b0aB002A16107f2A5EAD07d" Conn.ws fakeClient
      (fakeLib.PubkeyToAddress (hexValue mainKey.data)) 7 rfl rfl rfl⟩

/-! ## Gas resolution -/

set_option maxRecDepth 100000 in
/-- C5, counterexample: two calls in which a transaction is built with a field
the claim does not list. With no price override on a node that rejects the
gas-price query, the transaction is built with a nil gas price, and it is
signed and broadcast. With no limit override, four bytes of calldata and a node
that rejects the estimation, the transaction carries the price override 9 and
gas limit 0, which is neither an estimate of the node nor 7,000,000. -/
theorem gas_fields_after_failed_queries :
    nodeRejectingGasPrice.SuggestGasPrice = Except.error "method not available"
      ∧ (builtTxs (SignAndSendTransaction fakeLib (fakeHelper nodeRejectingGasPrice)
          "0x49c3Ea488e4F57e91b0aB002A16107f2A5EAD07d" (some 0) [] (some 7)
          Iface.nil Iface.nil).log).map LegacyTx.GasPrice = [none]
      ∧ (sentTxs (SignAndSendTransaction fakeLib (fakeHelper nodeRejectingGasPrice)
          "0x49c3Ea488e4F57e91b0aB002A16107f2A5EAD07d" (some 0) [] (some 7)
          Iface.nil Iface.nil).log).map (fun stx => stx.tx.GasPrice) = [none]
      ∧ (builtTxs (SignAndSendTransaction fakeLib (fakeHelper nodeRejectingEstimate)
          "0x49c3Ea488e4F57e91b0aB002A16107f2A5EAD07d" (some 0) [169, 5, 156, 187] (some 7)
          (priceOverride (some 9)) (limitOverride none)).log).map
            (fun tx => (tx.GasPrice, tx.Gas)) = [(some 9, 0)] := by
  refine ⟨rfl, by decide, by decide, by decide⟩

/-- C5, amended: on a connected helper, with an optional `*big.Int` price
override and an optional `uint64` limit override, and a node that answers the
gas-price query when no price override is supplied and the estimation when it
is needed (no limit override, non-empty `data`), `SignAndSendTransaction` builds
exactly one transaction; its gas price is the override when one is supplied and
otherwise the price the node suggests, and its gas limit is the override when
one is supplied, otherwise the node's estimate for `(to, data)` when `data` is
non-empty, otherwise 7,000,000. -/
theorem SignAndSendTransaction_gas (L : Lib) (w : Web3GolangHelper) (dest : String)
    (value : Option Int) (data : Bytes) (n : Int) (cgp : Option Int) (cgl : Option Nat)
    (conn : Conn) (c : Client) (suggested : Int) (estimate : Nat)
    (hc : selectClient w = ⟨Res.ret (conn, c), []⟩)
    (hp : cgp = none → c.SuggestGasPrice = Except.ok suggested)
    (he : cgl = none → data ≠ [] → c.EstimateGas (L.HexToAddress dest) data = Except.ok estimate) :
    builtTxs (SignAndSendTransaction L w dest value data (some n)
        (priceOverride cgp) (limitOverride cgl)).log
      = [⟨Uint64 n, some (specGasPrice cgp suggested), specGasLimit cgl data estimate,
          L.HexToAddress dest, value, data⟩] := by
  have hprice : resolveGasPrice w (priceOverride cgp)
      = ⟨Res.ret (some (specGasPrice cgp suggested)), [Event.rpc conn Rpc.SuggestGasPrice]⟩ := by
    cases cgp with
    | none => simp [priceOverride, resolveGasPrice_nil w conn c hc, hp rfl, specGasPrice,
        Except.toOption]
    | some p => simp [priceOverride, resolveGasPrice_bigInt w conn c _ hc, specGasPrice]
  have hlimit : ∃ ll, builtTxs ll = [] ∧ resolveGasLimit L w dest data (limitOverride cgl)
      = ⟨Res.ret (specGasLimit cgl data estimate), ll⟩ := by
    cases cgl with
    | some g => exact ⟨[], rfl, by simp [limitOverride, resolveGasLimit_uint64, specGasLimit]⟩
    | none =>
      by_cases hd : data = []
      · subst hd
        exact ⟨[], rfl, by simp [limitOverride, resolveGasLimit_nil_empty, specGasLimit,
          defaultGasLimit]⟩
      · exact ⟨[Event.rpc conn (Rpc.EstimateGas (L.HexToAddress dest) data)], rfl,
          by simp [limitOverride, resolveGasLimit_nil_data L w dest data conn c hc hd,
            he rfl hd, specGasLimit, hd]⟩
  obtain ⟨ll, hll, hlimit⟩ := hlimit
  rw [SignAndSendTransaction_resolved L w dest value data n _ _ _ _ _ _ hprice hlimit]
  simp [builtTxs, hll, signAndBroadcast_builtTxs]

set_option maxRecDepth 100000 in
/-- Witness for C5 amended: no override, four bytes of calldata, on `fakeClient`, which
suggests price 5 and estimates 21000. -/
theorem SignAndSendTransaction_gas_witness :
    selectClient (fakeHelper fakeClient) = ⟨Res.ret (Conn.ws, fakeClient), []⟩
      ∧ fakeClient.SuggestGasPrice = Except.ok 5
      ∧ fakeClient.EstimateGas
          (fakeLib.HexToAddress "0x49c3Ea488e4F57e91b0aB002A16107f2A5EAD07d") [1, 2, 3, 4]
          = Except.ok 21000
      ∧ builtTxs (SignAndSendTransaction fakeLib (fakeHelper fakeClient)
            "0x49c3Ea488e4F57e91b0aB002A16107f2A5EAD07d" (some 0) [1, 2, 3, 4] (some 7)
            (priceOverride none) (limitOverride none)).log
          = [⟨Uint64 7, some (specGasPrice none 5), specGasLimit none [1, 2, 3, 4] 21000,
              fakeLib.HexToAddress "0x49c3Ea488e4F57e91b0aB002A16107f2A5EAD07d", some 0,
              [1, 2, 3, 4]⟩] :=
  ⟨rfl, rfl, rfl,
    SignAndSendTransaction_gas fakeLib (fakeHelper fakeClient)
      "0x49c3Ea488e4F57e91b0aB002A16107f2A5EAD07d" (some 0) [1, 2, 3, 4] 7 none none
      Conn.ws fakeClient 5 21000 rfl (fun _ => rfl) (fun _ _ => rfl)⟩

set_option maxRecDepth 100000 in
/-- C6, counterexample: no limit override, four bytes of calldata, and a node
that rejects the estimation: the transaction is built with gas limit 0, not with
the default 7,000,000. -/
theorem gas_limit_zero_after_failed_estimate :
    (builtTxs (SignAndSendTransaction fakeLib (fakeHelper nodeRejectingEstimate)
        "0x49c3Ea488e4F57e91b0aB002A16107f2A5EAD07d" (some 0) [1, 2, 3, 4] (some 7)
        Iface.nil Iface.nil).log).map LegacyTx.Gas = [0]
      ∧ (builtTxs (SignAndSendTransaction fakeLib (fakeHelper nodeRejectingEstimate)
        "0x49c3Ea488e4F57e91b0aB002A16107f2A5EAD07d" (some 0) [1, 2, 3, 4] (some 7)
        Iface.nil Iface.nil).log).map LegacyTx.Gas ≠ [defaultGasLimit] := by
  decide

/-- C6, amended: with no limit override, non-empty calldata and a node that
rejects the estimation, `SignAndSendTransaction` does not abort at the
estimation: it goes on to build exactly one transaction, whose gas limit is 0,
the value `EstimateGas` returns on an error. -/
theorem SignAndSendTransaction_failed_estimate (L : Lib) (w : Web3GolangHelper) (dest : String)
    (value : Option Int) (data : Bytes) (n : Int) (cgp : Option Int)
    (conn : Conn) (c : Client) (err : String)
    (hc : selectClient w = ⟨Res.ret (conn, c), []⟩)
    (hd : data ≠ [])
    (he : c.EstimateGas (L.HexToAddress dest) data = Except.error err) :
    EstimateGas L w dest data
        = ⟨Res.ret 0, [Event.rpc conn (Rpc.EstimateGas (L.HexToAddress dest) data)]⟩
      ∧ builtTxs (SignAndSendTransaction L w dest value data (some n)
          (priceOverride cgp) Iface.nil).log
        = [⟨Uint64 n, (match cgp with
              | some p => some p
              | none => c.SuggestGasPrice.toOption), 0, L.HexToAddress dest, value, data⟩] := by
  have hprice : resolveGasPrice w (priceOverride cgp)
      = ⟨Res.ret (match cgp with
            | some p => some p
            | none => c.SuggestGasPrice.toOption), [Event.rpc conn Rpc.SuggestGasPrice]⟩ := by
    cases cgp with
    | none => simp [priceOverride, resolveGasPrice_nil w conn c hc]
    | some p => simp [priceOverride, resolveGasPrice_bigInt w conn c _ hc]
  have hlimit := resolveGasLimit_nil_data L w dest data conn c hc hd
  rw [he] at hlimit
  refine ⟨by rw [EstimateGas_eq L w dest data conn c hc, he], ?_⟩
  rw [SignAndSendTransaction_resolved L w dest value data n _ _ _ _ _ _ hprice hlimit]
  simp [builtTxs, signAndBroadcast_builtTxs]

set_option maxRecDepth 100000 in
/-- Witness for C6 amended, on the node that rejects every estimation. -/
theorem SignAndSendTransaction_failed_estimate_witness :
    selectClient (fakeHelper nodeRejectingEstimate) = ⟨Res.ret (Conn.ws, nodeRejectingEstimate), []⟩
      ∧ ([1, 2, 3, 4] : Bytes) ≠ []
      ∧ nodeRejectingEstimate.EstimateGas
          (fakeLib.HexToAddress "0x49c3Ea488e4F57e91b0aB002A16107f2A5EAD07d") [1, 2, 3, 4]
          = Except.error "execution reverted"
      ∧ (EstimateGas fakeLib (fakeHelper nodeRejectingEstimate)
            "0x49c3Ea488e4F57e91b0aB002A16107f2A5EAD07d" [1, 2, 3, 4]
          = ⟨Res.ret 0, [Event.rpc Conn.ws (Rpc.EstimateGas
              (fakeLib.HexToAddress "0x49c3Ea488e4F57e91b0aB002A16107f2A5EAD07d") [1, 2, 3, 4])]⟩
        ∧ builtTxs (SignAndSendTransaction fakeLib (fakeHelper nodeRejectingEstimate)
            "0x49c3Ea488e4F57e91b0aB002A16107f2A5EAD07d" (some 0) [1, 2, 3, 4] (some 7)
            (priceOverride none) Iface.nil).log
          = [⟨Uint64 7, (match (none : Option Int) with
                | some p => some p
                | none => nodeRejectingEstimate.SuggestGasPrice.toOption), 0,
              fakeLib.HexToAddress "0x49c3Ea488e4F57e91b0aB002A16107f2A5EAD07d", some 0,
              [1, 2, 3, 4]⟩]) :=
  ⟨rfl, by decide, rfl,
    SignAndSendTransaction_failed_estimate fakeLib (fakeHelper nodeRejectingEstimate)
      "0x49c3Ea488e4F57e91b0aB002A16107f2A5EAD07d" (some 0) [1, 2, 3, 4] 7 none
      Conn.ws nodeRejectingEstimate "execution reverted" rfl (by decide) rfl⟩

/-! ## Signing failures -/

/-- C7: for every input of `SignAndSendTransaction`, when `SignTx` fails with
error `e` on the transaction that was built (for example because the stored key
does not decode), the call returns `("", 0, e)` and `SendTransaction` is never
invoked. -/
theorem SignAndSendTransaction_sign_failure (L : Lib) (w : Web3GolangHelper) (dest : String)
    (value : Option Int) (data : Bytes) (nonce : Option Int) (cgp cgl : Iface)
    (tx : LegacyTx) (e : String)
    (hbuilt : Event.NewTx tx ∈ (SignAndSendTransaction L w dest value data nonce cgp cgl).log)
    (hsign : (SignTx L w tx).res = Res.ret (Except.error e)) :
    (SignAndSendTransaction L w dest value data nonce cgp cgl).res
        = Res.ret ("", some 0, some e)
      ∧ sentTxs (SignAndSendTransaction L w dest value data nonce cgp cgl).log = [] := by
  rw [← mem_builtTxs] at hbuilt
  rcases SignAndSendTransaction_cases L w dest value data nonce cgp cgl with
    ⟨n, price, gas, lp, ll, _, hb1, hs1, hb2, hs2, heq⟩ | ⟨_, hb, _⟩
  · rw [heq] at hbuilt ⊢
    simp [builtTxs, hb1, hb2, signAndBroadcast_builtTxs] at hbuilt
    subst hbuilt
    have hs : SignTx L w ⟨Uint64 n, price, gas, L.HexToAddress dest, value, data⟩
        = ⟨Res.ret (Except.error e), (SignTx L w
            ⟨Uint64 n, price, gas, L.HexToAddress dest, value, data⟩).log⟩ := by
      rw [← hsign]
    rw [signAndBroadcast_sign_error L w _ (some n) e _ hs]
    simp [sentTxs, hs1, hs2, (SignTx_quiet L w _).2]
  · rw [hb] at hbuilt
    simp at hbuilt

set_option maxRecDepth 100000 in
/-- Witness for C7: a helper whose stored key is not hexadecimal. -/
theorem SignAndSendTransaction_sign_failure_witness :
    Event.NewTx ⟨7, some 5, 7000000,
        fakeLib.HexToAddress "0x49c3Ea488e4F57e91b0aB002A16107f2A5EAD07d", some 1, []⟩
        ∈ (SignAndSendTransaction fakeLib (SetPrivateKey (fakeHelper fakeClient) "not-a-key")
            "0x49c3Ea488e4F57e91b0aB002A16107f2A5EAD07d" (some 1) [] (some 7)
            Iface.nil Iface.nil).log
      ∧ (SignTx fakeLib (SetPrivateKey (fakeHelper fakeClient) "not-a-key")
          ⟨7, some 5, 7000000,
            fakeLib.HexToAddress "0x49c3Ea488e4F57e91b0aB002A16107f2A5EAD07d", some 1, []⟩).res
          = Res.ret (Except.error "invalid private key")
      ∧ ((SignAndSendTransaction fakeLib (SetPrivateKey (fakeHelper fakeClient) "not-a-key")
            "0x49c3Ea488e4F57e91b0aB002A16107f2A5EAD07d" (some 1) [] (some 7)
            Iface.nil Iface.nil).res = Res.ret ("", some 0, some "invalid private key")
        ∧ sentTxs (SignAndSendTransaction fakeLib
            (SetPrivateKey (fakeHelper fakeClient) "not-a-key")
            "0x49c3Ea488e4F57e91b0aB002A16107f2A5EAD07d" (some 1) [] (some 7)
            Iface.nil Iface.nil).log = []) :=
  ⟨by decide, rfl,
    SignAndSendTransaction_sign_failure fakeLib
      (SetPrivateKey (fakeHelper fakeClient) "not-a-key")
      "0x49c3Ea488e4F57e91b0aB002A16107f2A5EAD07d" (some 1) [] (some 7) Iface.nil Iface.nil
      ⟨7, some 5, 7000000,
        fakeLib.HexToAddress "0x49c3Ea488e4F57e91b0aB002A16107f2A5EAD07d", some 1, []⟩
      "invalid private key" (by decide) rfl⟩

/-! ## Recipient validation -/

set_option maxRecDepth 100000 in
/-- C8, counterexample: `SendEth` to the string `not-an-address`, which
`ValidateAddress` rejects, is not refused: the helper queries the node four
times, broadcasts a signed transaction and returns a nil error. -/
theorem SendEth_invalid_recipient_counterexample :
    ValidateAddress "not-an-address" = false
      ∧ (rpcCalls (SendEth fakeLib (fakeHelper fakeClient) "not-an-address" "1").log).length = 4
      ∧ (sentTxs (SendEth fakeLib (fakeHelper fakeClient) "not-an-address" "1").log).length = 1
      ∧ (SendEth fakeLib (fakeHelper fakeClient) "not-an-address" "1").res
          = Res.ret ("0x0000000000000000000000000000000000000000000000000000000000000007",
              some 7, none) := by
  decide

/-- The run of `SignAndSendTransaction` once the price and limit blocks have
returned, when the key signs and the node accepts the broadcast: one transaction
is built, signed and sent, and its hash comes back with a nil error. -/
theorem SignAndSendTransaction_accepted (L : Lib) (w : Web3GolangHelper) (dest : String)
    (value : Option Int) (data : Bytes) (n : Int) (cgp cgl : Iface)
    (price : Option Int) (gas : Nat) (lp ll : List Event)
    (conn : Conn) (c hcl : Client) (d : Nat) (cid : Int)
    (hp : resolveGasPrice w cgp = ⟨Res.ret price, lp⟩)
    (hl : resolveGasLimit L w dest data cgl = ⟨Res.ret gas, ll⟩)
    (hc : selectClient w = ⟨Res.ret (conn, c), []⟩)
    (hk : L.HexToECDSA w.plainPrivateKey = Except.ok d)
    (hh : w.httpClient = some hcl)
    (hid : hcl.NetworkID = Except.ok cid)
    (hsig : ∀ tx, L.SignTxErr tx cid d = none)
    (hacc : ∀ stx, c.SendTransaction stx = none)
    (hjson : ∀ stx, L.MarshalJSONErr stx = none) :
    SignAndSendTransaction L w dest value data (some n) cgp cgl
      = ⟨Res.ret (L.TxHashHex ⟨⟨Uint64 n, price, gas, L.HexToAddress dest, value, data⟩, cid, d⟩,
            some n, none),
         lp ++ (ll ++ [Event.NewTx ⟨Uint64 n, price, gas, L.HexToAddress dest, value, data⟩,
            Event.rpc Conn.http Rpc.NetworkID,
            Event.rpc conn (Rpc.SendTransaction
              ⟨⟨Uint64 n, price, gas, L.HexToAddress dest, value, data⟩, cid, d⟩)])⟩ := by
  have hs : SignTx L w ⟨Uint64 n, price, gas, L.HexToAddress dest, value, data⟩
      = ⟨Res.ret (Except.ok ⟨⟨Uint64 n, price, gas, L.HexToAddress dest, value, data⟩, cid, d⟩),
          [Event.rpc Conn.http Rpc.NetworkID]⟩ := by
    simp [SignTx, ChainId, hk, hh, hid, hsig, emit]
  rw [SignAndSendTransaction_resolved L w dest value data n cgp cgl price gas lp ll hp hl,
    signAndBroadcast_signed L w _ (some n) _ _ conn c hs hc, hacc, hjson]
  simp

/-- The price block returns for an absent or `*big.Int` override. -/
theorem resolveGasPrice_override (w : Web3GolangHelper) (conn : Conn) (c : Client)
    (cgp : Option Int) (hc : selectClient w = ⟨Res.ret (conn, c), []⟩) :
    ∃ price, resolveGasPrice w (priceOverride cgp)
      = ⟨Res.ret price, [Event.rpc conn Rpc.SuggestGasPrice]⟩ := by
  cases cgp with
  | none => exact ⟨_, resolveGasPrice_nil w conn c hc⟩
  | some p => exact ⟨_, resolveGasPrice_bigInt w conn c _ hc⟩

/-- The limit block returns for an absent or `uint64` override, and builds and
broadcasts nothing. -/
theorem resolveGasLimit_override (L : Lib) (w : Web3GolangHelper) (dest : String) (data : Bytes)
    (conn : Conn) (c : Client) (cgl : Option Nat)
    (hc : selectClient w = ⟨Res.ret (conn, c), []⟩) :
    ∃ gas ll, resolveGasLimit L w dest data (limitOverride cgl) = ⟨Res.ret gas, ll⟩
      ∧ builtTxs ll = [] ∧ sentTxs ll = [] := by
  cases cgl with
  | some g => exact ⟨g, [], resolveGasLimit_uint64 L w dest data g, rfl, rfl⟩
  | none =>
    by_cases hd : data = []
    · subst hd
      exact ⟨_, [], resolveGasLimit_nil_empty L w dest, rfl, rfl⟩
    · exact ⟨_, _, resolveGasLimit_nil_data L w dest data conn c hc hd, rfl, rfl⟩

/-- C8, amended: only `IsAddressContract` rejects a string `s` that is not `0x`
and 40 hexadecimal digits before any call: it returns false with an empty trace.
The submission operations do not validate the recipient. On a connected helper
with an account whose pending nonce the node reports, a key that signs and a
node that accepts the broadcast, `SignAndSendTransaction`, `SendEth` and
`SendTokens` called with recipient `s` each build exactly one transaction,
addressed to `common.HexToAddress(s)`, broadcast exactly that transaction, and
return with a nil error. `CancelTx` first asks the chain client for the gas
price and then aborts: it returns no error value, and builds and broadcasts
nothing. -/
theorem recipient_validation (L : Lib) (w : Web3GolangHelper) (s token amount : String)
    (value : Option Int) (v n m : Int) (data : Bytes) (cnonce : Option Int)
    (cgp : Option Int) (cgl : Option Nat)
    (conn : Conn) (c hcl : Client) (a : Address) (pn d : Nat) (cid : Int)
    (hv : ValidateAddress s = false)
    (hc : selectClient w = ⟨Res.ret (conn, c), []⟩)
    (ha : w.FromAddress = some a)
    (hn : c.PendingNonceAt a = Except.ok pn)
    (hk : L.HexToECDSA w.plainPrivateKey = Except.ok d)
    (hh : w.httpClient = some hcl)
    (hid : hcl.NetworkID = Except.ok cid)
    (hsig : ∀ tx, L.SignTxErr tx cid d = none)
    (hacc : ∀ stx, c.SendTransaction stx = none)
    (hjson : ∀ stx, L.MarshalJSONErr stx = none) :
    IsAddressContract L w s = ⟨Res.ret false, []⟩
      ∧ ((builtTxs (SignAndSendTransaction L w s value data (some n)
              (priceOverride cgp) (limitOverride cgl)).log).map LegacyTx.To = [L.HexToAddress s]
        ∧ (sentTxs (SignAndSendTransaction L w s value data (some n)
              (priceOverride cgp) (limitOverride cgl)).log).map (fun stx => stx.tx.To)
            = [L.HexToAddress s]
        ∧ ∃ txId, (SignAndSendTransaction L w s value data (some n)
              (priceOverride cgp) (limitOverride cgl)).res = Res.ret (txId, some n, none))
      ∧ ((builtTxs (SendEth L w s amount).log).map LegacyTx.To = [L.HexToAddress s]
        ∧ (sentTxs (SendEth L w s amount).log).map (fun stx => stx.tx.To) = [L.HexToAddress s]
        ∧ ∃ txId, (SendEth L w s amount).res = Res.ret (txId, some (toInt64 pn), none))
      ∧ ((builtTxs (SendTokens L w token s (some v)).log).map LegacyTx.To = [L.HexToAddress s]
        ∧ (sentTxs (SendTokens L w token s (some v)).log).map (fun stx => stx.tx.To)
            = [L.HexToAddress s]
        ∧ ∃ txId, (SendTokens L w token s (some v)).res
            = Res.ret (txId, some (toInt64 pn), none))
      ∧ ((∃ rest, (CancelTx L w s cnonce m).log = Event.rpc conn Rpc.SuggestGasPrice :: rest)
        ∧ (∀ r, (CancelTx L w s cnonce m).res ≠ Res.ret r)
        ∧ builtTxs (CancelTx L w s cnonce m).log = []
        ∧ sentTxs (CancelTx L w s cnonce m).log = []) := by
  have hP := PendingNonce_eq w conn c a pn hc ha hn
  refine ⟨by simp [IsAddressContract, hv], ?_, ?_, ?_, ?_⟩
  · obtain ⟨price, hp⟩ := resolveGasPrice_override w conn c cgp hc
    obtain ⟨gas, ll, hl, hb, hs⟩ := resolveGasLimit_override L w s data conn c cgl hc
    rw [SignAndSendTransaction_accepted L w s value data n _ _ price gas _ ll conn c hcl d cid
      hp hl hc hk hh hid hsig hacc hjson]
    refine ⟨?_, ?_, ⟨_, rfl⟩⟩
    · simp [builtTxs, hb]
    · simp [sentTxs, hs]
  · obtain ⟨wei, hwei⟩ := ToWei_string_ret L amount 18
    have hS := SignAndSendTransaction_accepted L w s (some wei) [] (toInt64 pn) Iface.nil Iface.nil
      _ _ _ _ conn c hcl d cid (resolveGasPrice_nil w conn c hc) (resolveGasLimit_nil_empty L w s)
      hc hk hh hid hsig hacc hjson
    simp [SendEth, hwei, hP, hS, builtTxs, sentTxs]
  · have hE := EstimateGas_eq L w token
      (BuildTxData [(L.Keccak256 (strBytes "transfer(address,uint256)")).take 4,
        LeftPadBytes (L.HexToAddress s) 32, LeftPadBytes (bigBytes v) 32]) conn c hc
    have hS := SignAndSendTransaction_accepted L w s (some 0)
      (BuildTxData [(L.Keccak256 (strBytes "transfer(address,uint256)")).take 4,
        LeftPadBytes (L.HexToAddress s) 32, LeftPadBytes (bigBytes v) 32]) (toInt64 pn) Iface.nil
      (Iface.uint64 (match c.EstimateGas (L.HexToAddress token)
        (BuildTxData [(L.Keccak256 (strBytes "transfer(address,uint256)")).take 4,
          LeftPadBytes (L.HexToAddress s) 32, LeftPadBytes (bigBytes v) 32]) with
        | Except.ok e => e
        | Except.error _ => 0))
      _ _ _ _ conn c hcl d cid (resolveGasPrice_nil w conn c hc) (resolveGasLimit_uint64 L w s _ _)
      hc hk hh hid hsig hacc hjson
    simp [SendTokens, hE, hP, ToWei_bigInt, hS, builtTxs, sentTxs]
  · cases hp : c.SuggestGasPrice <;>
      simp [CancelTx, SignAndSendTransaction, resolveGasPrice, resolveGasLimit, hc, emit, goPanic,
        ToWei, Except.toOption, logLevel, builtTxs, sentTxs, hp]

set_option maxRecDepth 100000 in
/-- Witness for C8 amended, at the recipient `not-an-address`, on `fakeHelper`
and `fakeClient`, whose key signs and which accepts every broadcast. -/
theorem recipient_validation_witness :
    ValidateAddress "not-an-address" = false
      ∧ selectClient (fakeHelper fakeClient) = ⟨Res.ret (Conn.ws, fakeClient), []⟩
      ∧ (fakeHelper fakeClient).FromAddress = some (fakeLib.PubkeyToAddress (hexValue mainKey.data))
      ∧ fakeClient.PendingNonceAt (fakeLib.PubkeyToAddress (hexValue mainKey.data)) = Except.ok 7
      ∧ fakeLib.HexToECDSA (fakeHelper fakeClient).plainPrivateKey = Except.ok (hexValue mainKey.data)
      ∧ (fakeHelper fakeClient).httpClient = some fakeClient
      ∧ fakeClient.NetworkID = Except.ok 97
      ∧ (∀ tx, fakeLib.SignTxErr tx 97 (hexValue mainKey.data) = none)
      ∧ (∀ stx, fakeClient.SendTransaction stx = none)
      ∧ (∀ stx, fakeLib.MarshalJSONErr stx = none)
      ∧ (IsAddressContract fakeLib (fakeHelper fakeClient) "not-an-address" = ⟨Res.ret false, []⟩
        ∧ ((builtTxs (SignAndSendTransaction fakeLib (fakeHelper fakeClient) "not-an-address" (some 1) [] (some 7)
                (priceOverride none) (limitOverride none)).log).map LegacyTx.To
              = [fakeLib.HexToAddress "not-an-address"]
          ∧ (sentTxs (SignAndSendTransaction fakeLib (fakeHelper fakeClient) "not-an-address" (some 1) [] (some 7)
                (priceOverride none) (limitOverride none)).log).map (fun stx => stx.tx.To)
              = [fakeLib.HexToAddress "not-an-address"]
          ∧ ∃ txId, (SignAndSendTransaction fakeLib (fakeHelper fakeClient) "not-an-address" (some 1) [] (some 7)
                (priceOverride none) (limitOverride none)).res = Res.ret (txId, some 7, none))
        ∧ ((builtTxs (SendEth fakeLib (fakeHelper fakeClient) "not-an-address" "1").log).map LegacyTx.To
              = [fakeLib.HexToAddress "not-an-address"]
          ∧ (sentTxs (SendEth fakeLib (fakeHelper fakeClient) "not-an-address" "1").log).map (fun stx => stx.tx.To)
              = [fakeLib.HexToAddress "not-an-address"]
          ∧ ∃ txId, (SendEth fakeLib (fakeHelper fakeClient) "not-an-address" "1").res = Res.ret (txId, some (toInt64 7), none))
        ∧ ((builtTxs (SendTokens fakeLib (fakeHelper fakeClient) "0x9Ac64Cc6e4415144C455BD8E4837Fea55603e5c3" "not-an-address" (some 5)).log).map LegacyTx.To
              = [fakeLib.HexToAddress "not-an-address"]
          ∧ (sentTxs (SendTokens fakeLib (fakeHelper fakeClient) "0x9Ac64Cc6e4415144C455BD8E4837Fea55603e5c3" "not-an-address" (some 5)).log).map (fun stx => stx.tx.To)
              = [fakeLib.HexToAddress "not-an-address"]
          ∧ ∃ txId, (SendTokens fakeLib (fakeHelper fakeClient) "0x9Ac64Cc6e4415144C455BD8E4837Fea55603e5c3" "not-an-address" (some 5)).res
              = Res.ret (txId, some (toInt64 7), none))
        ∧ ((∃ rest, (CancelTx fakeLib (fakeHelper fakeClient) "not-an-address" (some 7) 2).log
              = Event.rpc Conn.ws Rpc.SuggestGasPrice :: rest)
          ∧ (∀ r, (CancelTx fakeLib (fakeHelper fakeClient) "not-an-address" (some 7) 2).res ≠ Res.ret r)
          ∧ builtTxs (CancelTx fakeLib (fakeHelper fakeClient) "not-an-address" (some 7) 2).log = []
          ∧ sentTxs (CancelTx fakeLib (fakeHelper fakeClient) "not-an-address" (some 7) 2).log = [])) :=
  ⟨by decide, rfl, rfl, rfl, rfl, rfl, rfl, fun _ => rfl, fun _ => rfl, fun _ => rfl,
    recipient_validation fakeLib (fakeHelper fakeClient) "not-an-address" "0x9Ac64Cc6e4415144C455BD8E4837Fea55603e5c3" "1" (some 1) 5 7 2 [] (some 7) none none
      Conn.ws fakeClient fakeClient (fakeLib.PubkeyToAddress (hexValue mainKey.data)) 7
      (hexValue mainKey.data) 97 (by decide) rfl rfl rfl rfl rfl rfl
      (fun _ => rfl) (fun _ => rfl) (fun _ => rfl)⟩

/-! ## Nonces -/

theorem toInt64_of_lt (n : Nat) (h : n < 2 ^ 63) : toInt64 n = (n : Int) := by
  have h2 : n % 2 ^ 64 = n := Nat.mod_eq_of_lt (by omega)
  unfold toInt64
  rw [h2, if_pos h]

theorem Uint64_toInt64_of_lt (n : Nat) (h : n < 2 ^ 63) : Uint64 (toInt64 n) = n := by
  rw [toInt64_of_lt n h]
  simp only [Uint64, Int.natAbs_ofNat]
  exact Nat.mod_eq_of_lt (by omega)

/-- A submission whose price override is absent and whose limit block returns:
the nonce of the one transaction built, the nonce of every broadcast signed
transaction, and the triple returned when the node accepts it. -/
theorem SignAndSendTransaction_nonce (L : Lib) (w : Web3GolangHelper) (dest : String)
    (value : Option Int) (data : Bytes) (cgl : Iface) (gas : Nat) (ll : List Event)
    (conn : Conn) (c : Client) (n : Nat)
    (hc : selectClient w = ⟨Res.ret (conn, c), []⟩)
    (hl : resolveGasLimit L w dest data cgl = ⟨Res.ret gas, ll⟩)
    (hlt : n < 2 ^ 63) :
    (builtTxs (SignAndSendTransaction L w dest value data (some (toInt64 n)) Iface.nil cgl).log).map
        LegacyTx.Nonce = [n]
      ∧ ∀ stx ∈ sentTxs
          (SignAndSendTransaction L w dest value data (some (toInt64 n)) Iface.nil cgl).log,
          stx.tx.Nonce = n
            ∧ (SignAndSendTransaction L w dest value data (some (toInt64 n)) Iface.nil cgl).res
              = Res.ret (match c.SendTransaction stx with
                | some sendTxErr => ("", some 0, some sendTxErr)
                | none =>
                  match L.MarshalJSONErr stx with
                  | some e => ("", some 0, some e)
                  | none => (L.TxHashHex stx, some (n : Int), none)) := by
  have hq := resolveGasLimit_quiet L w dest data cgl
  rw [hl] at hq
  simp only at hq
  rw [SignAndSendTransaction_resolved L w dest value data (toInt64 n) _ _ _ _ _ _
    (resolveGasPrice_nil w conn c hc) hl]
  refine ⟨by simp [builtTxs, hq.1, signAndBroadcast_builtTxs, Uint64_toInt64_of_lt n hlt], ?_⟩
  intro stx hmem
  simp [sentTxs, hq.2] at hmem
  have h := signAndBroadcast_sent L w _ _ conn c hc stx hmem
  refine ⟨by rw [h.1]; exact Uint64_toInt64_of_lt n hlt, ?_⟩
  rw [h.2, toInt64_of_lt n hlt]

set_option maxRecDepth 100000 in
/-- C9, counterexample: the node reports pending nonce 2^63 + 1. The conversion
`int64(nonce)` wraps, so `SendEth` builds and broadcasts a transaction with nonce
2^63 - 1 and returns the nonce -(2^63 - 1). -/
theorem SendEth_nonce_counterexample :
    (nodeWithNonce 9223372036854775809).PendingNonceAt
        (fakeLib.PubkeyToAddress (hexValue mainKey.data)) = Except.ok 9223372036854775809
      ∧ (builtTxs (SendEth fakeLib (fakeHelper (nodeWithNonce 9223372036854775809))
          "0x49c3Ea488e4F57e91b0aB002A16107f2A5EAD07d" "1").log).map LegacyTx.Nonce
          = [9223372036854775807]
      ∧ (sentTxs (SendEth fakeLib (fakeHelper (nodeWithNonce 9223372036854775809))
          "0x49c3Ea488e4F57e91b0aB002A16107f2A5EAD07d" "1").log).map (fun stx => stx.tx.Nonce)
          = [9223372036854775807]
      ∧ returnedNonce (SendEth fakeLib (fakeHelper (nodeWithNonce 9223372036854775809))
          "0x49c3Ea488e4F57e91b0aB002A16107f2A5EAD07d" "1") = some (-9223372036854775807) := by
  refine ⟨rfl, by decide, by decide, by decide⟩

/-- C9, amended: when the node's pending nonce `n` for the active `FromAddress`
is below 2^63, `SendEth` and `SendTokens` each build exactly one transaction,
with nonce `n`; every signed transaction they broadcast carries nonce `n`; and
when the node accepts it (and its JSON rendering for the log succeeds) the
operation returns the hash of that signed transaction together with `n` and a
nil error. -/
theorem SendEth_SendTokens_nonce (L : Lib) (w : Web3GolangHelper) (dest token amount : String)
    (v : Int) (conn : Conn) (c : Client) (a : Address) (n : Nat)
    (hc : selectClient w = ⟨Res.ret (conn, c), []⟩)
    (ha : w.FromAddress = some a)
    (hn : c.PendingNonceAt a = Except.ok n)
    (hlt : n < 2 ^ 63) :
    ((builtTxs (SendEth L w dest amount).log).map LegacyTx.Nonce = [n]
      ∧ ∀ stx ∈ sentTxs (SendEth L w dest amount).log, stx.tx.Nonce = n
          ∧ (c.SendTransaction stx = none → L.MarshalJSONErr stx = none →
              (SendEth L w dest amount).res = Res.ret (L.TxHashHex stx, some (n : Int), none)))
    ∧ ((builtTxs (SendTokens L w token dest (some v)).log).map LegacyTx.Nonce = [n]
      ∧ ∀ stx ∈ sentTxs (SendTokens L w token dest (some v)).log, stx.tx.Nonce = n
          ∧ (c.SendTransaction stx = none → L.MarshalJSONErr stx = none →
              (SendTokens L w token dest (some v)).res
                = Res.ret (L.TxHashHex stx, some (n : Int), none))) := by
  have hP := PendingNonce_eq w conn c a n hc ha hn
  constructor
  · obtain ⟨wei, hwei⟩ := ToWei_string_ret L amount 18
    have hS := SignAndSendTransaction_nonce L w dest (some wei) [] Iface.nil _ _ conn c n hc
      (resolveGasLimit_nil_empty L w dest) hlt
    have hlog : (SendEth L w dest amount).log = Event.rpc conn (Rpc.PendingNonceAt a)
        :: (SignAndSendTransaction L w dest (some wei) [] (some (toInt64 n))
              Iface.nil Iface.nil).log := by
      simp only [SendEth, hwei, hP, run_bind_eq, Run.bind_mk_ret, List.nil_append,
        List.singleton_append]
      rw [Run.bind_silent_log]
      intro x
      rcases x with ⟨txId, nonce, err⟩
      cases err <;> rfl
    rw [hlog]
    refine ⟨by simpa [builtTxs] using hS.1, ?_⟩
    intro stx hmem
    simp only [sentTxs] at hmem
    obtain ⟨h1, h2⟩ := hS.2 stx hmem
    refine ⟨h1, fun hacc hjson => ?_⟩
    rw [hacc, hjson] at h2
    simp [SendEth, hwei, hP, h2, Run.bind]
  · have hE := EstimateGas_eq L w token
      (BuildTxData [(L.Keccak256 (strBytes "transfer(address,uint256)")).take 4,
        LeftPadBytes (L.HexToAddress dest) 32, LeftPadBytes (bigBytes v) 32]) conn c hc
    have hS := SignAndSendTransaction_nonce L w dest (some 0)
      (BuildTxData [(L.Keccak256 (strBytes "transfer(address,uint256)")).take 4,
        LeftPadBytes (L.HexToAddress dest) 32, LeftPadBytes (bigBytes v) 32])
      (Iface.uint64 (match c.EstimateGas (L.HexToAddress token)
        (BuildTxData [(L.Keccak256 (strBytes "transfer(address,uint256)")).take 4,
          LeftPadBytes (L.HexToAddress dest) 32, LeftPadBytes (bigBytes v) 32]) with
        | Except.ok e => e
        | Except.error _ => 0)) _ _ conn c n hc (resolveGasLimit_uint64 L w dest _ _) hlt
    have hlog : (SendTokens L w token dest (some v)).log
        = Event.rpc conn (Rpc.EstimateGas (L.HexToAddress token)
            (BuildTxData [(L.Keccak256 (strBytes "transfer(address,uint256)")).take 4,
              LeftPadBytes (L.HexToAddress dest) 32, LeftPadBytes (bigBytes v) 32]))
          :: Event.rpc conn (Rpc.PendingNonceAt a)
          :: (SignAndSendTransaction L w dest (some 0)
              (BuildTxData [(L.Keccak256 (strBytes "transfer(address,uint256)")).take 4,
                LeftPadBytes (L.HexToAddress dest) 32, LeftPadBytes (bigBytes v) 32])
              (some (toInt64 n)) Iface.nil
              (Iface.uint64 (match c.EstimateGas (L.HexToAddress token)
                (BuildTxData [(L.Keccak256 (strBytes "transfer(address,uint256)")).take 4,
                  LeftPadBytes (L.HexToAddress dest) 32, LeftPadBytes (bigBytes v) 32]) with
                | Except.ok e => e
                | Except.error _ => 0))).log := by
      simp only [SendTokens, hE, hP, ToWei_bigInt, run_bind_eq, run_pure_def, Run.bind_mk_ret,
        List.nil_append, List.singleton_append, List.cons_append]
      rw [Run.bind_silent_log]
      intro x
      rcases x with ⟨txId, nonce, err⟩
      cases err <;> rfl
    rw [hlog]
    refine ⟨by simpa [builtTxs] using hS.1, ?_⟩
    intro stx hmem
    simp only [sentTxs] at hmem
    obtain ⟨h1, h2⟩ := hS.2 stx hmem
    refine ⟨h1, fun hacc hjson => ?_⟩
    rw [hacc, hjson] at h2
    simp [SendTokens, hE, hP, ToWei_bigInt, h2, Run.bind]

set_option maxRecDepth 100000 in
/-- Witness for C9 amended: pending nonce 7 on a node that accepts the
broadcast; both operations broadcast one signed transaction and return nonce 7. -/
theorem SendEth_SendTokens_nonce_witness :
    selectClient (fakeHelper fakeClient) = ⟨Res.ret (Conn.ws, fakeClient), []⟩
      ∧ (fakeHelper fakeClient).FromAddress
          = some (fakeLib.PubkeyToAddress (hexValue mainKey.data))
      ∧ fakeClient.PendingNonceAt (fakeLib.PubkeyToAddress (hexValue mainKey.data)) = Except.ok 7
      ∧ 7 < 2 ^ 63
      ∧ (sentTxs (SendEth fakeLib (fakeHelper fakeClient)
            "0x49c3Ea488e4F57e91b0aB002A16107f2A5EAD07d" "1").log).length = 1
      ∧ (sentTxs (SendTokens fakeLib (fakeHelper fakeClient)
            "0x9Ac64Cc6e4415144C455BD8E4837Fea55603e5c3"
            "0x49c3Ea488e4F57e91b0aB002A16107f2A5EAD07d" (some 5)).log).length = 1
      ∧ returnedNonce (SendEth fakeLib (fakeHelper fakeClient)
            "0x49c3Ea488e4F57e91b0aB002A16107f2A5EAD07d" "1") = some 7
      ∧ returnedNonce (SendTokens fakeLib (fakeHelper fakeClient)
            "0x9Ac64Cc6e4415144C455BD8E4837Fea55603e5c3"
            "0x49c3Ea488e4F57e91b0aB002A16107f2A5EAD07d" (some 5)) = some 7
      ∧ (((builtTxs (SendEth fakeLib (fakeHelper fakeClient)
              "0x49c3Ea488e4F57e91b0aB002A16107f2A5EAD07d" "1").log).map LegacyTx.Nonce = [7]
          ∧ ∀ stx ∈ sentTxs (SendEth fakeLib (fakeHelper fakeClient)
              "0x49c3Ea488e4F57e91b0aB002A16107f2A5EAD07d" "1").log, stx.tx.Nonce = 7
            ∧ (fakeClient.SendTransaction stx = none → fakeLib.MarshalJSONErr stx = none →
                (SendEth fakeLib (fakeHelper fakeClient)
                  "0x49c3Ea488e4F57e91b0aB002A16107f2A5EAD07d" "1").res
                  = Res.ret (fakeLib.TxHashHex stx, some ((7 : Nat) : Int), none)))
        ∧ ((builtTxs (SendTokens fakeLib (fakeHelper fakeClient)
              "0x9Ac64Cc6e4415144C455BD8E4837Fea55603e5c3"
              "0x49c3Ea488e4F57e91b0aB002A16107f2A5EAD07d" (some 5)).log).map LegacyTx.Nonce = [7]
          ∧ ∀ stx ∈ sentTxs (SendTokens fakeLib (fakeHelper fakeClient)
              "0x9Ac64Cc6e4415144C455BD8E4837Fea55603e5c3"
              "0x49c3Ea488e4F57e91b0aB002A16107f2A5EAD07d" (some 5)).log, stx.tx.Nonce = 7
            ∧ (fakeClient.SendTransaction stx = none → fakeLib.MarshalJSONErr stx = none →
                (SendTokens fakeLib (fakeHelper fakeClient)
                  "0x9Ac64Cc6e4415144C455BD8E4837Fea55603e5c3"
                  "0x49c3Ea488e4F57e91b0aB002A16107f2A5EAD07d" (some 5)).res
                  = Res.ret (fakeLib.TxHashHex stx, some ((7 : Nat) : Int), none)))) :=
  ⟨rfl, rfl, rfl, by decide, by decide, by decide, by decide, by decide,
    SendEth_SendTokens_nonce fakeLib (fakeHelper fakeClient)
      "0x49c3Ea488e4F57e91b0aB002A16107f2A5EAD07d" "0x9Ac64Cc6e4415144C455BD8E4837Fea55603e5c3" "1"
      5 Conn.ws fakeClient (fakeLib.PubkeyToAddress (hexValue mainKey.data)) 7 rfl rfl rfl
      (by decide)⟩

/-! ## Calldata layout -/

theorem BuildTxData_foldl (acc : Bytes) (data : List Bytes) :
    data.foldl (fun txData v => txData ++ v) acc = acc ++ data.flatten := by
  induction data generalizing acc with
  | nil => simp
  | cons d ds ih => simp [ih]

/-- The function `BuildTxData` is plain concatenation. -/
theorem BuildTxData_eq_flatten (data : List Bytes) : BuildTxData data = data.flatten := by
  simp [BuildTxData, BuildTxData_foldl]

theorem LeftPadBytes_length (slice : Bytes) (h : slice.length ≤ 32) :
    (LeftPadBytes slice 32).length = 32 := by
  unfold LeftPadBytes
  split
  · omega
  · simp only [List.length_append, List.length_replicate]
    omega

theorem LeftPadBytes_eq (slice : Bytes) (h : slice.length ≤ 32) :
    LeftPadBytes slice 32 = List.replicate (32 - slice.length) 0 ++ slice := by
  unfold LeftPadBytes
  split
  · have : slice.length = 32 := by omega
    simp [this]
  · rfl

theorem padded_flatten_length (args : List Bytes) (hargs : ∀ a ∈ args, a.length ≤ 32) :
    ((args.map (fun a => LeftPadBytes a 32)).flatten).length = 32 * args.length := by
  induction args with
  | nil => rfl
  | cons a as ih =>
    have h1 := LeftPadBytes_length a (hargs a (List.mem_cons_self _ _))
    have h2 := ih (fun b hb => hargs b (List.mem_cons_of_mem _ hb))
    simp only [List.map_cons, List.flatten_cons, List.length_append, List.length_cons, h1, h2]
    omega

theorem padded_flatten_slot (args : List Bytes) (hargs : ∀ a ∈ args, a.length ≤ 32)
    (i : Nat) (h : i < args.length) :
    (((args.map (fun a => LeftPadBytes a 32)).flatten).drop (32 * i)).take 32
      = LeftPadBytes (args.get ⟨i, h⟩) 32 := by
  induction args generalizing i with
  | nil => simp at h
  | cons a as ih =>
    have h1 := LeftPadBytes_length a (hargs a (List.mem_cons_self _ _))
    cases i with
    | zero =>
      simp only [List.map_cons, List.flatten_cons, Nat.mul_zero, List.drop_zero, List.get_cons_zero]
      rw [List.take_append_of_le_length (by omega), List.take_of_length_le (by omega)]
      rfl
    | succ j =>
      have hj : j < as.length := by simpa using h
      have := ih (fun b hb => hargs b (List.mem_cons_of_mem _ hb)) j hj
      simp only [List.map_cons, List.flatten_cons, List.get_cons_succ]
      rw [show 32 * (j + 1) = (LeftPadBytes a 32).length + 32 * j by omega, List.drop_append]
      exact this

/-- C11, counterexample: `BuildTxData` does not pad. A 4-byte selector and one
argument of one byte give 5 bytes, not 36. -/
theorem BuildTxData_short_argument_counterexample :
    BuildTxData [[169, 5, 156, 187], [5]] = [169, 5, 156, 187, 5]
      ∧ (BuildTxData [[169, 5, 156, 187], [5]]).length ≠ 4 + 32 * 1 := by
  decide

/-- C11, amended: `BuildTxData` only concatenates. When every argument of at
most 32 bytes is first left-padded to 32 bytes by `LeftPadBytes`, as `SendTokens`
and `BuyV2` do, the result for a 4-byte selector and `N` arguments has length
`4 + 32 * N`, starts with the selector, and holds argument `i` in bytes
`4 + 32 * i ..< 4 + 32 * (i + 1)`, right-aligned after zero bytes. -/
theorem BuildTxData_padded_layout (selector : Bytes) (args : List Bytes)
    (hsel : selector.length = 4) (hargs : ∀ a ∈ args, a.length ≤ 32) :
    (BuildTxData (selector :: args.map (fun a => LeftPadBytes a 32))).length
        = 4 + 32 * args.length
      ∧ (BuildTxData (selector :: args.map (fun a => LeftPadBytes a 32))).take 4 = selector
      ∧ ∀ (i : Nat) (h : i < args.length),
          ((BuildTxData (selector :: args.map (fun a => LeftPadBytes a 32))).drop
              (4 + 32 * i)).take 32
            = List.replicate (32 - (args.get ⟨i, h⟩).length) 0 ++ args.get ⟨i, h⟩ := by
  rw [BuildTxData_eq_flatten, List.flatten_cons]
  refine ⟨?_, ?_, ?_⟩
  · rw [List.length_append, padded_flatten_length args hargs, hsel]
  · rw [List.take_append_of_le_length (by omega), List.take_of_length_le (by omega)]
  · intro i h
    rw [show 4 + 32 * i = selector.length + 32 * i by omega, List.drop_append,
      padded_flatten_slot args hargs i h]
    exact LeftPadBytes_eq _ (hargs _ (List.get_mem _ _ _))

/-- Witness for C11 amended: the selector and two short arguments. -/
theorem BuildTxData_padded_layout_witness :
    ([169, 5, 156, 187] : Bytes).length = 4
      ∧ (∀ a ∈ ([[1, 2], [5]] : List Bytes), a.length ≤ 32)
      ∧ ((BuildTxData (([169, 5, 156, 187] : Bytes)
              :: ([[1, 2], [5]] : List Bytes).map (fun a => LeftPadBytes a 32))).length
            = 4 + 32 * ([[1, 2], [5]] : List Bytes).length
          ∧ (BuildTxData (([169, 5, 156, 187] : Bytes)
              :: ([[1, 2], [5]] : List Bytes).map (fun a => LeftPadBytes a 32))).take 4
            = [169, 5, 156, 187]
          ∧ ∀ (i : Nat) (h : i < ([[1, 2], [5]] : List Bytes).length),
              ((BuildTxData (([169, 5, 156, 187] : Bytes)
                  :: ([[1, 2], [5]] : List Bytes).map (fun a => LeftPadBytes a 32))).drop
                  (4 + 32 * i)).take 32
                = List.replicate (32 - (([[1, 2], [5]] : List Bytes).get ⟨i, h⟩).length) 0
                    ++ ([[1, 2], [5]] : List Bytes).get ⟨i, h⟩) :=
  ⟨by decide, by decide,
    BuildTxData_padded_layout [169, 5, 156, 187] [[1, 2], [5]] (by decide) (by decide)⟩

/-! ## Gas cost -/

/-- C15, counterexample: gas limit 2^63 and gas price 1. The conversion
`int64(gasLimit)` wraps and the cost returned is -2^63, not 2^63. -/
theorem CalcGasCost_wrap_counterexample :
    CalcGasCost 9223372036854775808 (some 1) = ⟨Res.ret (-9223372036854775808), []⟩
      ∧ (-9223372036854775808 : Int) ≠ ((9223372036854775808 : Nat) : Int) * 1 := by
  decide

/-- C15, amended: for every gas limit below 2^63 and every gas price,
`CalcGasCost` returns the exact product. -/
theorem CalcGasCost_exact (gasLimit : Nat) (gasPrice : Int) (h : gasLimit < 2 ^ 63) :
    CalcGasCost gasLimit (some gasPrice) = ⟨Res.ret ((gasLimit : Int) * gasPrice), []⟩ := by
  simp [CalcGasCost, toInt64_of_lt gasLimit h]

/-- Witness for C15 amended: the gas limit and price used by `Buy`. -/
theorem CalcGasCost_exact_witness :
    2100000 < 2 ^ 63
      ∧ CalcGasCost 2100000 (some 5000000000)
        = ⟨Res.ret (((2100000 : Nat) : Int) * 5000000000), []⟩ :=
  ⟨by decide, CalcGasCost_exact 2100000 5000000000 (by decide)⟩

/-! ## Token transfers -/

/-- The calldata `SendTokens` builds for `transfer(dest, v)`. -/
theorem SendTokens_log (L : Lib) (w : Web3GolangHelper) (token dest : String) (v : Int)
    (conn : Conn) (c : Client) (a : Address) (n : Nat)
    (hc : selectClient w = ⟨Res.ret (conn, c), []⟩)
    (ha : w.FromAddress = some a)
    (hn : c.PendingNonceAt a = Except.ok n) :
    (SendTokens L w token dest (some v)).log
      = Event.rpc conn (Rpc.EstimateGas (L.HexToAddress token)
          (BuildTxData [(L.Keccak256 (strBytes "transfer(address,uint256)")).take 4,
            LeftPadBytes (L.HexToAddress dest) 32, LeftPadBytes (bigBytes v) 32]))
        :: Event.rpc conn (Rpc.PendingNonceAt a)
        :: (SignAndSendTransaction L w dest (some 0)
            (BuildTxData [(L.Keccak256 (strBytes "transfer(address,uint256)")).take 4,
              LeftPadBytes (L.HexToAddress dest) 32, LeftPadBytes (bigBytes v) 32])
            (some (toInt64 n)) Iface.nil
            (Iface.uint64 (match c.EstimateGas (L.HexToAddress token)
              (BuildTxData [(L.Keccak256 (strBytes "transfer(address,uint256)")).take 4,
                LeftPadBytes (L.HexToAddress dest) 32, LeftPadBytes (bigBytes v) 32]) with
              | Except.ok e => e
              | Except.error _ => 0))).log := by
  have hE := EstimateGas_eq L w token
    (BuildTxData [(L.Keccak256 (strBytes "transfer(address,uint256)")).take 4,
      LeftPadBytes (L.HexToAddress dest) 32, LeftPadBytes (bigBytes v) 32]) conn c hc
  have hP := PendingNonce_eq w conn c a n hc ha hn
  simp only [SendTokens, hE, hP, ToWei_bigInt, run_bind_eq, run_pure_def, Run.bind_mk_ret,
    List.nil_append, List.singleton_append, List.cons_append]
  rw [Run.bind_silent_log]
  intro x
  rcases x with ⟨txId, nonce, err⟩
  cases err <;> rfl

/-- C18: `SendTokens(T, R, v)` estimates gas against the token contract `T` but
builds its one transaction, whose calldata encodes `transfer(R, v)`, with the
recipient `R` in the `To` field: the transaction is addressed to `R`, not to
`T`. -/
theorem SendTokens_addressed_to_recipient (L : Lib) (w : Web3GolangHelper)
    (token dest : String) (v : Int) (conn : Conn) (c : Client) (a : Address) (n : Nat)
    (hc : selectClient w = ⟨Res.ret (conn, c), []⟩)
    (ha : w.FromAddress = some a)
    (hn : c.PendingNonceAt a = Except.ok n) :
    (SendTokens L w token dest (some v)).log.head?
        = some (Event.rpc conn (Rpc.EstimateGas (L.HexToAddress token)
            (BuildTxData [(L.Keccak256 (strBytes "transfer(address,uint256)")).take 4,
              LeftPadBytes (L.HexToAddress dest) 32, LeftPadBytes (bigBytes v) 32])))
      ∧ (builtTxs (SendTokens L w token dest (some v)).log).map LegacyTx.To
        = [L.HexToAddress dest]
      ∧ (builtTxs (SendTokens L w token dest (some v)).log).map LegacyTx.Data
        = [BuildTxData [(L.Keccak256 (strBytes "transfer(address,uint256)")).take 4,
            LeftPadBytes (L.HexToAddress dest) 32, LeftPadBytes (bigBytes v) 32]] := by
  rw [SendTokens_log L w token dest v conn c a n hc ha hn]
  rw [SignAndSendTransaction_resolved L w dest _ _ _ _ _ _ _ _ _
    (resolveGasPrice_nil w conn c hc) (resolveGasLimit_uint64 L w dest _ _)]
  simp [builtTxs, signAndBroadcast_builtTxs]

set_option maxRecDepth 100000 in
/-- Witness for C18: token contract and recipient with different addresses. -/
theorem SendTokens_addressed_to_recipient_witness :
    selectClient (fakeHelper fakeClient) = ⟨Res.ret (Conn.ws, fakeClient), []⟩
      ∧ (fakeHelper fakeClient).FromAddress
          = some (fakeLib.PubkeyToAddress (hexValue mainKey.data))
      ∧ fakeClient.PendingNonceAt (fakeLib.PubkeyToAddress (hexValue mainKey.data)) = Except.ok 7
      ∧ fakeLib.HexToAddress "0x49c3Ea488e4F57e91b0aB002A16107f2A5EAD07d"
          ≠ fakeLib.HexToAddress "0x9Ac64Cc6e4415144C455BD8E4837Fea55603e5c3"
      ∧ ((SendTokens fakeLib (fakeHelper fakeClient)
            "0x9Ac64Cc6e4415144C455BD8E4837Fea55603e5c3"
            "0x49c3Ea488e4F57e91b0aB002A16107f2A5EAD07d" (some 5)).log.head?
          = some (Event.rpc Conn.ws (Rpc.EstimateGas
              (fakeLib.HexToAddress "0x9Ac64Cc6e4415144C455BD8E4837Fea55603e5c3")
              (BuildTxData [(fakeLib.Keccak256 (strBytes "transfer(address,uint256)")).take 4,
                LeftPadBytes (fakeLib.HexToAddress "0x49c3Ea488e4F57e91b0aB002A16107f2A5EAD07d") 32,
                LeftPadBytes (bigBytes 5) 32])))
        ∧ (builtTxs (SendTokens fakeLib (fakeHelper fakeClient)
            "0x9Ac64Cc6e4415144C455BD8E4837Fea55603e5c3"
            "0x49c3Ea488e4F57e91b0aB002A16107f2A5EAD07d" (some 5)).log).map LegacyTx.To
          = [fakeLib.HexToAddress "0x49c3Ea488e4F57e91b0aB002A16107f2A5EAD07d"]
        ∧ (builtTxs (SendTokens fakeLib (fakeHelper fakeClient)
            "0x9Ac64Cc6e4415144C455BD8E4837Fea55603e5c3"
            "0x49c3Ea488e4F57e91b0aB002A16107f2A5EAD07d" (some 5)).log).map LegacyTx.Data
          = [BuildTxData [(fakeLib.Keccak256 (strBytes "transfer(address,uint256)")).take 4,
              LeftPadBytes (fakeLib.HexToAddress "0x49c3Ea488e4F57e91b0aB002A16107f2A5EAD07d") 32,
              LeftPadBytes (bigBytes 5) 32]]) :=
  ⟨rfl, rfl, rfl, by decide,
    SendTokens_addressed_to_recipient fakeLib (fakeHelper fakeClient)
      "0x9Ac64Cc6e4415144C455BD8E4837Fea55603e5c3" "0x49c3Ea488e4F57e91b0aB002A16107f2A5EAD07d" 5
      Conn.ws fakeClient (fakeLib.PubkeyToAddress (hexValue mainKey.data)) 7 rfl rfl rfl⟩

/-! ## Signatures -/

theorem Bytes2Hex_length (d : Bytes) : (Bytes2Hex d).length = 2 * d.length := by
  induction d with
  | nil => rfl
  | cons b bs ih => simp only [Bytes2Hex, List.length_cons, ih]; omega

theorem Bytes2Hex_append (d e : Bytes) : Bytes2Hex (d ++ e) = Bytes2Hex d ++ Bytes2Hex e := by
  induction d with
  | nil => rfl
  | cons b bs ih => simp [Bytes2Hex, ih]

theorem Bytes2Hex_drop (d : Bytes) (k : Nat) :
    (Bytes2Hex d).drop (2 * k) = Bytes2Hex (d.drop k) := by
  induction d generalizing k with
  | nil => simp [Bytes2Hex]
  | cons b bs ih =>
    cases k with
    | zero => rfl
    | succ j =>
      rw [show 2 * (j + 1) = 2 * j + 1 + 1 by omega]
      simp only [Bytes2Hex, List.drop_succ_cons, ih]

theorem Bytes2Hex_take (d : Bytes) (k : Nat) :
    (Bytes2Hex d).take (2 * k) = Bytes2Hex (d.take k) := by
  induction d generalizing k with
  | nil => simp [Bytes2Hex]
  | cons b bs ih =>
    cases k with
    | zero => rfl
    | succ j =>
      rw [show 2 * (j + 1) = 2 * j + 1 + 1 by omega]
      simp only [Bytes2Hex, List.take_succ_cons, ih]

set_option maxRecDepth 100000 in
theorem hexChar_facts : ∀ n < 16, isHexChar (hexChar n) = true ∧ hexDigit (hexChar n) = n
    ∧ hexChar n ≠ 'x' ∧ hexChar n ≠ 'X' := by
  decide

/-- Decoding the hexadecimal rendering of bytes gives the bytes back. -/
theorem hexDecode_Bytes2Hex (d : Bytes) (hb : ∀ b ∈ d, b < 256) : hexDecode (Bytes2Hex d) = d := by
  induction d with
  | nil => rfl
  | cons b bs ih =>
    have hlt : b < 256 := hb b (List.mem_cons_self _ _)
    have h1 := hexChar_facts (b / 16 % 16) (Nat.mod_lt _ (by decide))
    have h2 := hexChar_facts (b % 16) (Nat.mod_lt _ (by decide))
    have hdiv : b / 16 % 16 = b / 16 := Nat.mod_eq_of_lt (by omega)
    simp only [Bytes2Hex, hexDecode, h1.1, h2.1, Bool.and_self, if_true,
      ih (fun x hx => hb x (List.mem_cons_of_mem _ hx))]
    rw [h1.2.1, h2.2.1, hdiv]
    congr 1
    omega

theorem FromHex_Bytes2Hex (d : Bytes) (hb : ∀ b ∈ d, b < 256) : FromHex (Bytes2Hex d) = d := by
  have hbody : (match Bytes2Hex d with
      | '0' :: 'x' :: rest => rest
      | '0' :: 'X' :: rest => rest
      | cs => cs) = Bytes2Hex d := by
    cases d with
    | nil => rfl
    | cons b bs =>
      have h2 := hexChar_facts (b % 16) (Nat.mod_lt _ (by decide))
      simp only [Bytes2Hex]
      split
      · rename_i heq
        simp only [List.cons.injEq] at heq
        exact absurd heq.2.1 h2.2.2.1
      · rename_i heq
        simp only [List.cons.injEq] at heq
        exact absurd heq.2.1 h2.2.2.2
      · rfl
  unfold FromHex
  simp only [hbody]
  have hlen : (Bytes2Hex d).length % 2 = 0 := by
    rw [Bytes2Hex_length]
    omega
  rw [if_neg (by omega)]
  exact hexDecode_Bytes2Hex d hb

theorem copy32_of_length (d : Bytes) (h : d.length = 32) : copy32 d = d := by
  simp [copy32, List.take_of_length_le (le_of_eq h), h]

set_option maxRecDepth 100000 in
theorem Atoi_two_hex_digits : ∀ hi < 16, ∀ lo < 16,
    Atoi [hexChar hi, hexChar lo]
      = if hi < 10 ∧ lo < 10 then ((10 * hi + lo : Nat) : Int) else 0 := by
  decide

/-- C20: for a 65-byte signature, `SigRSV` returns `R` = bytes 0..31 and `S` =
bytes 32..63, but `V` is not the last byte plus 27: the two hexadecimal digits of
the last byte are read by `strconv.Atoi` as a decimal number, so `V` is that
decimal reading plus 27 when both digits are below `a`, and 27 otherwise. -/
theorem SigRSV_bytes (sig : Bytes) (hlen : sig.length = 65) (hb : ∀ b ∈ sig, b < 256) :
    SigRSV (Iface.bytes sig)
      = ⟨Res.ret (sig.take 32, (sig.drop 32).take 32,
          if sig.getD 64 0 / 16 < 10 ∧ sig.getD 64 0 % 16 < 10
          then 10 * (sig.getD 64 0 / 16) + sig.getD 64 0 % 16 + 27 else 27), []⟩ := by
  have hslen : (Bytes2Hex sig).length = 130 := by rw [Bytes2Hex_length, hlen]
  have hR : ((Bytes2Hex sig).drop 0).take (64 - 0) = Bytes2Hex (sig.take 32) := by
    rw [List.drop_zero, show 64 - 0 = 2 * 32 by rfl, Bytes2Hex_take]
  have hS : ((Bytes2Hex sig).drop 64).take (128 - 64) = Bytes2Hex ((sig.drop 32).take 32) := by
    rw [show 64 = 2 * 32 by rfl, Bytes2Hex_drop, show 128 - 2 * 32 = 2 * 32 by rfl,
      Bytes2Hex_take]
  have hlast : sig.drop 64 = [sig.getD 64 0] := by
    have h1 : (sig.drop 64).length = 1 := by rw [List.length_drop, hlen]
    match hd : sig.drop 64, h1 with
    | [x], _ =>
      have : sig.getD 64 0 = x := by
        rw [List.getD_eq_getElem?_getD, ← List.head?_drop, hd]
        rfl
      rw [this]
  have hV : ((Bytes2Hex sig).drop 128).take (130 - 128)
      = [hexChar (sig.getD 64 0 / 16 % 16), hexChar (sig.getD 64 0 % 16)] := by
    rw [show 128 = 2 * 64 by rfl, Bytes2Hex_drop, hlast]
    rfl
  have hlt : sig.getD 64 0 < 256 := by
    have hmem : sig.getD 64 0 ∈ sig.drop 64 := by rw [hlast]; exact List.mem_singleton_self _
    exact hb _ (List.mem_of_mem_drop hmem)
  have hdiv : sig.getD 64 0 / 16 % 16 = sig.getD 64 0 / 16 := Nat.mod_eq_of_lt (by omega)
  have hA := Atoi_two_hex_digits (sig.getD 64 0 / 16) (by omega) (sig.getD 64 0 % 16)
    (Nat.mod_lt _ (by decide))
  have hRb : ∀ b ∈ sig.take 32, b < 256 := fun b h => hb b (List.mem_of_mem_take h)
  have hSb : ∀ b ∈ (sig.drop 32).take 32, b < 256 :=
    fun b h => hb b (List.mem_of_mem_drop (List.mem_of_mem_take h))
  have hRl : (sig.take 32).length = 32 := by rw [List.length_take, hlen]; rfl
  have hSl : ((sig.drop 32).take 32).length = 32 := by
    rw [List.length_take, List.length_drop, hlen]; rfl
  simp only [SigRSV, sliceStr, hslen, run_bind_eq, run_pure_eq, Run.bind_mk_ret,
    Nat.zero_le, Nat.le_refl, and_self, if_true, hR, hS, hV, hdiv, hA,
    FromHex_Bytes2Hex _ hRb, FromHex_Bytes2Hex _ hSb, copy32_of_length _ hRl,
    copy32_of_length _ hSl, List.append_nil, show (64 : Nat) ≤ 128 ∧ 128 ≤ 130 by decide,
    show (128 : Nat) ≤ 130 ∧ 130 ≤ 130 by decide, show (0 : Nat) ≤ 64 ∧ 64 ≤ 130 by decide]
  congr 3
  by_cases hcond : sig.getD 64 0 / 16 < 10 ∧ sig.getD 64 0 % 16 < 10
  · rw [if_pos hcond, if_pos hcond]
    clear hA
    congr 1
    omega
  · rw [if_neg hcond, if_neg hcond]
    rfl

set_option maxRecDepth 100000 in
/-- Witness for C20: a signature whose last byte is 16. The code returns
`V = 37`, where last byte plus 27 is 43. -/
theorem SigRSV_bytes_witness :
    (List.replicate 64 7 ++ [16] : Bytes).length = 65
      ∧ (∀ b ∈ (List.replicate 64 7 ++ [16] : Bytes), b < 256)
      ∧ (List.replicate 64 7 ++ [16] : Bytes).getD 64 0 + 27 = 43
      ∧ (SigRSV (Iface.bytes (List.replicate 64 7 ++ [16]))).res
          = Res.ret (List.replicate 32 7, List.replicate 32 7, 37)
      ∧ SigRSV (Iface.bytes (List.replicate 64 7 ++ [16]))
        = ⟨Res.ret ((List.replicate 64 7 ++ [16] : Bytes).take 32,
            ((List.replicate 64 7 ++ [16] : Bytes).drop 32).take 32,
            if (List.replicate 64 7 ++ [16] : Bytes).getD 64 0 / 16 < 10
                ∧ (List.replicate 64 7 ++ [16] : Bytes).getD 64 0 % 16 < 10
            then 10 * ((List.replicate 64 7 ++ [16] : Bytes).getD 64 0 / 16)
              + (List.replicate 64 7 ++ [16] : Bytes).getD 64 0 % 16 + 27 else 27), []⟩ :=
  ⟨by decide, by decide, by decide, by decide,
    SigRSV_bytes (List.replicate 64 7 ++ [16]) (by decide) (by decide)⟩

/-! ## Address patterns -/

theorem isHexChar_iff (c : Char) :
    isHexChar c = true ↔ ('0' ≤ c ∧ c ≤ '9') ∨ ('a' ≤ c ∧ c ≤ 'f') ∨ ('A' ≤ c ∧ c ≤ 'F') := by
  simp [isHexChar, or_assoc]

theorem hexClass_eq (d : Char) :
    ([('0', '9'), ('a', 'f'), ('A', 'F')] : List (Char × Char)).any
        (fun r => decide (r.1 ≤ d) && decide (d ≤ r.2)) = isHexChar d := by
  simp [isHexChar, Bool.or_assoc]

/-- Forty copies of the class followed by `$` match exactly the texts of forty
hexadecimal digits. -/
theorem matchHere_hexRun (n : Nat) (b : Bool) (cs : List Char) :
    matchHere (List.replicate n (Re.cls [('0', '9'), ('a', 'f'), ('A', 'F')]) ++ [Re.endText]) b cs
      = (cs.length == n && cs.all isHexChar) := by
  induction n generalizing b cs with
  | zero =>
    cases cs <;> simp [matchHere]
  | succ k ih =>
    cases cs with
    | nil => simp [List.replicate_succ, matchHere]
    | cons d ds =>
      simp only [List.replicate_succ, List.cons_append, matchHere, hexClass_eq,
        List.length_cons, List.all_cons]
      rw [List.append_eq, ih]
      cases isHexChar d <;> simp

theorem matchHere_address_not_start (cs : List Char) : matchHere addressPattern false cs = false := by
  simp [addressPattern, matchHere]

theorem matchFrom_address_not_start (cs : List Char) : matchFrom addressPattern false cs = false := by
  induction cs with
  | nil => simp [matchFrom, matchHere_address_not_start]
  | cons c cs ih => simp [matchFrom, matchHere_address_not_start, ih]

theorem matchFrom_address_start (cs : List Char) :
    matchFrom addressPattern true cs = matchHere addressPattern true cs := by
  cases cs with
  | nil => rfl
  | cons c cs => simp [matchFrom, matchFrom_address_not_start]

theorem matchHere_address_start (cs : List Char) :
    matchHere addressPattern true cs
      = (match cs with
        | '0' :: 'x' :: rest => rest.length == 40 && rest.all isHexChar
        | _ => false) := by
  match cs with
  | [] => simp [addressPattern, matchHere]
  | [c] =>
    simp only [addressPattern, matchHere, Bool.true_and, Bool.and_false]
  | c :: d :: rest =>
    simp only [addressPattern, matchHere, Bool.true_and, matchHere_hexRun]
    split
    · rename_i heq
      simp only [List.cons.injEq] at heq
      obtain ⟨h1, h2, h3⟩ := heq
      subst h1 h2 h3
      simp
    · rename_i hno
      by_cases hc : c = '0'
      · by_cases hd : d = 'x'
        · exact absurd (by rw [hc, hd]) (hno rest)
        · have : ('x' == d) = false := by simpa using fun h' => hd h'.symm
          simp [this]
      · have : ('0' == c) = false := by simpa using fun h' => hc h'.symm
        simp [this]

/-- The direct reading of the pattern used for `ValidateAddress` agrees with the
regular-expression match. -/
theorem ValidateAddress_eq_MatchString (s : String) :
    ValidateAddress s = MatchString addressPattern s := by
  unfold MatchString ValidateAddress
  rw [matchFrom_address_start, matchHere_address_start]

theorem ValidateAddress_iff (s : String) : ValidateAddress s = true ↔ isAddressString s := by
  unfold ValidateAddress isAddressString
  split
  · rename_i rest heq
    constructor
    · intro h
      simp only [Bool.and_eq_true, beq_iff_eq, List.all_eq_true] at h
      exact ⟨rest, heq, h.1, fun c hc => (isHexChar_iff c).mp (h.2 c hc)⟩
    · rintro ⟨rest2, h1, h2, h3⟩
      rw [heq] at h1
      simp only [List.cons.injEq, true_and] at h1
      subst h1
      simp only [Bool.and_eq_true, beq_iff_eq, List.all_eq_true]
      exact ⟨h2, fun c hc => (isHexChar_iff c).mpr (h3 c hc)⟩
  · rename_i hno
    constructor
    · intro h
      exact absurd h (by simp)
    · rintro ⟨rest, h1, _, _⟩
      exact absurd h1 (hno rest)

set_option maxRecDepth 100000 in
set_option maxHeartbeats 4000000 in
theorem caseHex_char_facts : ∀ n < 16, isHexChar (hexChar n) = true
    ∧ isHexChar (Char.ofNat ((hexChar n).toNat - 32)) = (decide ('9' < hexChar n)) := by
  decide

theorem caseHex_Bytes2Hex (upper : Nat → Bool) (i : Nat) (d : Bytes) :
    (caseHex upper i (Bytes2Hex d)).length = 2 * d.length
      ∧ (caseHex upper i (Bytes2Hex d)).all isHexChar = true := by
  induction d generalizing i with
  | nil => exact ⟨rfl, rfl⟩
  | cons b bs ih =>
    have h1 := caseHex_char_facts (b / 16 % 16) (Nat.mod_lt _ (by decide))
    have h2 := caseHex_char_facts (b % 16) (Nat.mod_lt _ (by decide))
    obtain ⟨ihl, iha⟩ := ih (i + 1 + 1)
    have hx : ∀ (n j : Nat), isHexChar (hexChar n) = true →
        isHexChar (Char.ofNat ((hexChar n).toNat - 32)) = (decide ('9' < hexChar n)) →
        isHexChar (if decide ('9' < hexChar n) && upper j
          then Char.ofNat ((hexChar n).toNat - 32) else hexChar n) = true := by
      intro n j hn1 hn2
      by_cases hcond : (decide ('9' < hexChar n) && upper j) = true
      · rw [if_pos hcond, hn2]
        simp only [Bool.and_eq_true] at hcond
        exact hcond.1
      · rw [if_neg hcond]
        exact hn1
    refine ⟨?_, ?_⟩
    · simp only [Bytes2Hex, caseHex, List.length_cons, ihl]
      omega
    · have hx1 := hx (b / 16 % 16) i h1.1 h1.2
      have hx2 := hx (b % 16) (i + 1) h2.1 h2.2
      simp only [Bytes2Hex, caseHex, List.all_cons, iha, Bool.and_true]
      rw [hx1, hx2]
      rfl

/-- C12: for every string `s`, `IsValidAddress(s)` and `ValidateAddress(s)` are
each true exactly when `s` is `0x` followed by exactly 40 characters of
`[0-9a-fA-F]`; `IsValidAddress` is true for every `common.Address` (20 bytes,
which `Address.Hex` renders as `0x` and their 40 hexadecimal digits in some
letter case), and false for a value of any other type. -/
theorem IsValidAddress_spec (L : Lib) (s : String) (a : Address) (upper : Nat → Bool)
    (ha : a.length = 20)
    (hHex : (L.AddressHex a).data = '0' :: 'x' :: caseHex upper 0 (Bytes2Hex a)) :
    (IsValidAddress L (Iface.string s) = true ↔ isAddressString s)
      ∧ (ValidateAddress s = true ↔ isAddressString s)
      ∧ IsValidAddress L (Iface.address a) = true
      ∧ ∀ x : Iface, (∀ v, x ≠ Iface.string v) → (∀ v, x ≠ Iface.address v) →
          IsValidAddress L x = false := by
  refine ⟨?_, ValidateAddress_iff s, ?_, ?_⟩
  · rw [← ValidateAddress_iff s, ValidateAddress_eq_MatchString]
    rfl
  · have h := caseHex_Bytes2Hex upper 0 a
    show MatchString addressPattern (L.AddressHex a) = true
    rw [← ValidateAddress_eq_MatchString]
    unfold ValidateAddress
    rw [hHex]
    simp only [Bool.and_eq_true, beq_iff_eq]
    exact ⟨by rw [h.1, ha], h.2⟩
  · intro x hs hadr
    cases x with
    | string v => exact absurd rfl (hs v)
    | address v => exact absurd rfl (hadr v)
    | _ => rfl

set_option maxRecDepth 100000 in
/-- Witness for C12: the address of main.go, rendered in lower case. -/
theorem IsValidAddress_spec_witness :
    (fakeHexToAddress "0x49c3Ea488e4F57e91b0aB002A16107f2A5EAD07d").length = 20
      ∧ (fakeLib.AddressHex (fakeHexToAddress "0x49c3Ea488e4F57e91b0aB002A16107f2A5EAD07d")).data
          = '0' :: 'x' :: caseHex (fun _ => false) 0
              (Bytes2Hex (fakeHexToAddress "0x49c3Ea488e4F57e91b0aB002A16107f2A5EAD07d"))
      ∧ IsValidAddress fakeLib (Iface.string "0x49c3Ea488e4F57e91b0aB002A16107f2A5EAD07d") = true
      ∧ IsValidAddress fakeLib (Iface.string "0x49c3Ea488e4F57e91b0aB002A16107f2A5EAD07") = false
      ∧ ((IsValidAddress fakeLib (Iface.string "0x49c3Ea488e4F57e91b0aB002A16107f2A5EAD07d") = true
            ↔ isAddressString "0x49c3Ea488e4F57e91b0aB002A16107f2A5EAD07d")
          ∧ (ValidateAddress "0x49c3Ea488e4F57e91b0aB002A16107f2A5EAD07d" = true
            ↔ isAddressString "0x49c3Ea488e4F57e91b0aB002A16107f2A5EAD07d")
          ∧ IsValidAddress fakeLib
              (Iface.address (fakeHexToAddress "0x49c3Ea488e4F57e91b0aB002A16107f2A5EAD07d")) = true
          ∧ ∀ x : Iface, (∀ v, x ≠ Iface.string v) → (∀ v, x ≠ Iface.address v) →
              IsValidAddress fakeLib x = false) :=
  ⟨by decide, by decide, by decide, by decide,
    IsValidAddress_spec fakeLib "0x49c3Ea488e4F57e91b0aB002A16107f2A5EAD07d"
      (fakeHexToAddress "0x49c3Ea488e4F57e91b0aB002A16107f2A5EAD07d") (fun _ => false)
      (by decide) (by decide)⟩

/-! ## Unit conversions -/

set_option maxRecDepth 100000 in
/-- C17: the ether amount `1 - 2^-70` (mantissa `2^70 - 1`, exponent -70) times
10^18 is above `10^18 - 1`, yet `EtherToWei` returns 0. The integer part
truncates to 0, while the `%.18f` text rounds up to `1.000000000000000000`, whose
fraction digits are all zero: the carry into the integer part is lost. -/
theorem EtherToWei_loses_carry :
    EtherToWei ⟨false, 2 ^ 70 - 1, -70⟩ = ⟨Res.ret 0, []⟩
      ∧ formatF 18 ⟨false, 2 ^ 70 - 1, -70⟩ = "1.000000000000000000".data
      ∧ (⟨false, 2 ^ 70 - 1, -70⟩ : BigFloat).truncInt = 0
      ∧ (10 ^ 18 - 1) * (⟨false, 2 ^ 70 - 1, -70⟩ : BigFloat).den
          < (⟨false, 2 ^ 70 - 1, -70⟩ : BigFloat).num * 10 ^ 18 := by
  decide

set_option maxRecDepth 100000 in
/-- C19: 10^19 wei (10 ether) is an exact multiple of 10^9, and `WeiToGwei`
returns nil for it: the quotient 10^10 is printed by `String` with ten
significant digits as `1e+10`, which `SetString` does not parse. Up to ten digits
the text is the integer itself (5·10^9 wei gives 5). -/
theorem WeiToGwei_nil_for_ten_ether :
    (10 ^ 19 : Int) % 10 ^ 9 = 0
      ∧ WeiToGwei (10 ^ 19) = none
      ∧ (quoByUnit (10 ^ 19) (10 ^ 9)).String = "1e+10".data
      ∧ WeiToGwei 5000000000 = some 5
      ∧ WeiToGwei 9999999999000000000 = some 9999999999 := by
  decide

/-! ## Event delivery -/

/-- C16, counterexample: after a subscription error the loop has sent one item
and is still running, not terminated; a log entry delivered after the error is
forwarded as well, so the loop does send again. -/
theorem deliveryLoop_error_counterexample :
    deliveryLoop LoopState.running [Delivery.subErr (some "connection closed")]
        = ([OutItem.logs], LoopState.running)
      ∧ deliveryLoop LoopState.running
          [Delivery.subErr (some "connection closed"), Delivery.log ⟨[1], "0xab", 7⟩]
        = ([OutItem.logs, OutItem.logs], LoopState.running) := by
  decide

/-- C16, amended: a delivery loop forwards exactly one item to the output
channel for every delivery, be it a log entry or a value of the subscription's
error channel, and it never leaves its `for` loop: whatever it has received,
errors included, it is still running and forwards what it receives next. -/
theorem deliveryLoop_forwards_every_delivery (ds : List Delivery) :
    deliveryLoop LoopState.running ds
      = (List.replicate ds.length OutItem.logs, LoopState.running) := by
  induction ds with
  | nil => rfl
  | cons d ds ih =>
    cases d <;> simp [deliveryLoop, deliveryStep, ih, List.replicate_succ]

/-! ## Rounding -/

theorem rneDiv_one (a : Nat) : rneDiv a 1 = a := by
  simp [rneDiv, Nat.mod_one]

/-- The rounded quotient is within half a unit of the quotient. -/
theorem rneDiv_spec (a b : Nat) (hb : 0 < b) :
    2 * (rneDiv a b * b) ≤ 2 * a + b ∧ 2 * a ≤ 2 * (rneDiv a b * b) + b := by
  have hdm : b * (a / b) + a % b = a := Nat.div_add_mod a b
  have hlt : a % b < b := Nat.mod_lt a hb
  rw [Nat.mul_comm] at hdm
  unfold rneDiv
  split
  · generalize a / b * b = qb at hdm ⊢
    omega
  · split
    · rw [Nat.add_mul, Nat.one_mul]
      generalize a / b * b = qb at hdm ⊢
      omega
    · split
      · generalize a / b * b = qb at hdm ⊢
        omega
      · rw [Nat.add_mul, Nat.one_mul]
        generalize a / b * b = qb at hdm ⊢
        omega

/-- An integer strictly within half a unit of the quotient is the rounded
quotient. -/
theorem rneDiv_unique (a b n : Nat) (hb : 0 < b)
    (h1 : 2 * (n * b) < 2 * a + b) (h2 : 2 * a < 2 * (n * b) + b) : rneDiv a b = n := by
  obtain ⟨s1, s2⟩ := rneDiv_spec a b hb
  by_contra hne
  rcases Nat.lt_or_gt_of_ne hne with hlt | hgt
  · have : (rneDiv a b + 1) * b ≤ n * b := Nat.mul_le_mul_right b hlt
    rw [Nat.add_mul, Nat.one_mul] at this
    generalize rneDiv a b * b = rb at *
    generalize n * b = nb at *
    omega
  · have : (n + 1) * b ≤ rneDiv a b * b := Nat.mul_le_mul_right b hgt
    rw [Nat.add_mul, Nat.one_mul] at this
    generalize rneDiv a b * b = rb at *
    generalize n * b = nb at *
    omega

theorem div_le_rneDiv (a b : Nat) : a / b ≤ rneDiv a b := by
  unfold rneDiv
  split
  · exact Nat.le_refl _
  · split
    · exact Nat.le_succ _
    · split
      · exact Nat.le_refl _
      · exact Nat.le_succ _

/-- The rounded quotient is not below an integer that is not above the quotient. -/
theorem rneDiv_ge (a b n : Nat) (hb : 0 < b) (h : n * b ≤ a) : n ≤ rneDiv a b :=
  Nat.le_trans ((Nat.le_div_iff_mul_le hb).mpr h) (div_le_rneDiv a b)

theorem bitLenAux_bounds (fuel : Nat) : ∀ n : Nat, 0 < n → n ≤ fuel →
    1 ≤ bitLenAux fuel n ∧ 2 ^ (bitLenAux fuel n - 1) ≤ n ∧ n < 2 ^ bitLenAux fuel n := by
  induction fuel with
  | zero => intro n h0 h; omega
  | succ f ih =>
    intro n h0 h
    have hne : n ≠ 0 := by omega
    simp only [bitLenAux, hne, if_false]
    by_cases h2 : n / 2 = 0
    · have hn1 : n = 1 := by omega
      subst hn1
      have : bitLenAux f (1 / 2) = 0 := by
        cases f <;> simp [bitLenAux]
      rw [this]
      decide
    · obtain ⟨i1, i2, i3⟩ := ih (n / 2) (by omega) (by omega)
      refine ⟨by omega, ?_, ?_⟩
      · rw [Nat.add_sub_cancel]
        have : 2 ^ bitLenAux f (n / 2) = 2 * 2 ^ (bitLenAux f (n / 2) - 1) := by
          rw [← Nat.pow_succ']
          congr 1
          omega
        omega
      · rw [Nat.pow_succ]
        omega

theorem bitLen_bounds (n : Nat) (h : 0 < n) :
    1 ≤ bitLen n ∧ 2 ^ (bitLen n - 1) ≤ n ∧ n < 2 ^ bitLen n :=
  bitLenAux_bounds n n h (Nat.le_refl n)

/-- An integer not above `floorLog2 a b` is a binary exponent not above the
quotient `a / b`. -/
theorem floorLog2_ge_imp (a b m : Nat) (ha : 0 < a) (hb : 0 < b)
    (h : (m : Int) ≤ floorLog2 a b) : b * 2 ^ m ≤ a := by
  obtain ⟨a1, a2, a3⟩ := bitLen_bounds a ha
  obtain ⟨b1, b2, b3⟩ := bitLen_bounds b hb
  unfold floorLog2 at h
  split at h
  · rename_i hle
    split at h
    · rename_i hchk
      have hm : m ≤ bitLen a - bitLen b := by omega
      calc b * 2 ^ m ≤ b * 2 ^ (bitLen a - bitLen b) :=
            Nat.mul_le_mul_left b (Nat.pow_le_pow_right (by decide) hm)
        _ ≤ a := hchk
    · have hm : m + 1 ≤ bitLen a - bitLen b := by omega
      have h1 : b * 2 ^ m ≤ 2 ^ bitLen b * 2 ^ m :=
        Nat.mul_le_mul_right _ (Nat.le_of_lt b3)
      have h2 : 2 ^ bitLen b * 2 ^ m = 2 ^ (bitLen b + m) := (Nat.pow_add 2 _ _).symm
      have h3 : 2 ^ (bitLen b + m) ≤ 2 ^ (bitLen a - 1) :=
        Nat.pow_le_pow_right (by decide) (by omega)
      omega
  · split at h <;> omega

/-- Storing a positive integer below 2^236 at precision 236 is exact. -/
theorem roundQuo_int_exact (neg : Bool) (x : Nat) (hx0 : 0 < x) (hx : x < 2 ^ 236) :
    (roundQuo 236 neg x 1).neg = neg
      ∧ (roundQuo 236 neg x 1).num = x * (roundQuo 236 neg x 1).den
      ∧ 0 < (roundQuo 236 neg x 1).den := by
  have hfl : floorLog2 x 1 ≤ 235 := by
    by_contra hcon
    have := floorLog2_ge_imp x 1 236 hx0 (by decide) (by push_cast; omega)
    omega
  have hne : x ≠ 0 := by omega
  unfold roundQuo
  rw [if_neg hne]
  split
  · rename_i hpos
    have hz : floorLog2 x 1 - (((236 : Nat) : Int) - 1) = 0 := by push_cast at hpos ⊢; omega
    simp only [BigFloat.num, BigFloat.den, hz, Int.toNat_zero, Nat.pow_zero, Nat.mul_one,
      rneDiv_one, le_refl, if_true]
    exact ⟨trivial, trivial, by decide⟩
  · rename_i hneg
    simp only [BigFloat.num, BigFloat.den, if_neg hneg, rneDiv_one]
    exact ⟨trivial, trivial, by positivity⟩

/-! ## Decimal texts -/

set_option maxRecDepth 100000 in
theorem digitChar_facts : ∀ k < 10, (Nat.digitChar k).isDigit = true
    ∧ (Nat.digitChar k).toNat - 48 = k ∧ Nat.digitChar k ≠ '.'
    ∧ Nat.digitChar k ≠ '+' ∧ Nat.digitChar k ≠ '-' := by
  decide

theorem toDigitsCore_no_dot (fuel : Nat) : ∀ (n : Nat) (ds : List Char),
    (∀ c ∈ ds, c ≠ '.') → ∀ c ∈ Nat.toDigitsCore 10 fuel n ds, c ≠ '.' := by
  induction fuel with
  | zero => intro n ds h; simpa [Nat.toDigitsCore] using h
  | succ f ih =>
    intro n ds h
    have hd := (digitChar_facts (n % 10) (Nat.mod_lt _ (by decide))).2.2.1
    have hcons : ∀ c ∈ Nat.digitChar (n % 10) :: ds, c ≠ '.' := by
      intro c hc
      rcases List.mem_cons.mp hc with rfl | hc
      · exact hd
      · exact h c hc
    simp only [Nat.toDigitsCore]
    split
    · exact hcons
    · exact ih _ _ hcons

theorem toDigits_no_dot (n : Nat) : ∀ c ∈ Nat.toDigits 10 n, c ≠ '.' :=
  toDigitsCore_no_dot _ n [] (by simp)

theorem fixedDigits_length (w n : Nat) : (fixedDigits w n).length = w := by
  induction w generalizing n with
  | zero => rfl
  | succ k ih => simp [fixedDigits, ih]

theorem fixedDigits_digits (w n : Nat) :
    ∀ c ∈ fixedDigits w n, c.isDigit = true ∧ c ≠ '.' ∧ c ≠ '+' ∧ c ≠ '-' := by
  induction w generalizing n with
  | zero => simp [fixedDigits]
  | succ k ih =>
    intro c hc
    simp only [fixedDigits, List.mem_append, List.mem_singleton] at hc
    rcases hc with hc | rfl
    · exact ih _ c hc
    · have := digitChar_facts (n % 10) (Nat.mod_lt _ (by decide))
      exact ⟨this.1, this.2.2.1, this.2.2.2.1, this.2.2.2.2⟩

theorem fixedDigits_value (w n : Nat) :
    (fixedDigits w n).foldl (fun acc c => 10 * acc + ((c.toNat - 48 : Nat) : Int)) 0
      = ((n % 10 ^ w : Nat) : Int) := by
  induction w generalizing n with
  | zero => simp [fixedDigits, Nat.mod_one]
  | succ k ih =>
    have hd := (digitChar_facts (n % 10) (Nat.mod_lt _ (by decide))).2.1
    simp only [fixedDigits, List.foldl_append, List.foldl_cons, List.foldl_nil, ih, hd]
    rw [Nat.pow_succ, Nat.mul_comm (10 ^ k) 10, Nat.mod_mul]
    push_cast
    ring

/-- Parsing the fixed-width digits of `n` gives `n` modulo `10^w` back. -/
theorem bigSetString_fixedDigits (w n : Nat) (hw : 0 < w) :
    bigSetString (fixedDigits w n) = some ((n % 10 ^ w : Nat) : Int) := by
  have hlen := fixedDigits_length w n
  have hdig := fixedDigits_digits w n
  have hval := fixedDigits_value w n
  match hfd : fixedDigits w n with
  | [] => rw [hfd] at hlen; simp at hlen; omega
  | c :: cs =>
    rw [hfd] at hdig hval
    have hc := hdig c (List.mem_cons_self _ _)
    have hall : (c :: cs).all Char.isDigit = true := by
      rw [List.all_eq_true]
      exact fun d hd => (hdig d hd).1
    unfold bigSetString
    split
    · rename_i heq
      simp only [List.cons.injEq] at heq
      exact absurd heq.1 hc.2.2.1
    · rename_i heq
      simp only [List.cons.injEq] at heq
      exact absurd heq.1 hc.2.2.2
    · simp only [ne_eq, reduceCtorEq, not_false_eq_true, hall, and_self, if_true, hval]

theorem splitDot_no_dot (ds : List Char) (h : ∀ c ∈ ds, c ≠ '.') : splitDot ds = [ds] := by
  induction ds with
  | nil => rfl
  | cons c cs ih =>
    have hc : c ≠ '.' := h c (List.mem_cons_self _ _)
    simp only [splitDot, if_neg hc, ih (fun d hd => h d (List.mem_cons_of_mem _ hd))]

theorem splitDot_append (ds fs : List Char) (h : ∀ c ∈ ds, c ≠ '.') :
    splitDot (ds ++ '.' :: fs) = ds :: splitDot fs := by
  induction ds with
  | nil => simp [splitDot]
  | cons c cs ih =>
    have hc : c ≠ '.' := h c (List.mem_cons_self _ _)
    have ih2 := ih (fun d hd => h d (List.mem_cons_of_mem _ hd))
    simp only [List.cons_append, splitDot, if_neg hc]
    rw [List.append_eq, ih2]

/-! ## Round trips through the ether value -/

/-- When the value of `q` rounds to `x` at `digits` decimals and its integer
part is that of `x / 10^digits`, the conversion returns `x`. -/
theorem etherToUnit_of_exact (digits : Nat) (q : BigFloat) (x : Nat) (hd : 0 < digits)
    (hneg : q.neg = false) (htrunc : q.num / q.den = x / 10 ^ digits)
    (hround : rneDiv (q.num * 10 ^ digits) q.den = x) :
    etherToUnit digits q = ⟨Res.ret (x : Int), []⟩ := by
  have hsplit : splitDot (formatF digits q)
      = [Nat.toDigits 10 (x / 10 ^ digits), fixedDigits digits (x % 10 ^ digits)] := by
    unfold formatF
    rw [hneg, hround]
    simp only [Bool.false_eq_true, if_false, List.nil_append, gt_iff_lt, hd, if_true]
    rw [splitDot_append _ _ (toDigits_no_dot _),
      splitDot_no_dot _ (fun c hc => (fixedDigits_digits _ _ c hc).2.1)]
  have hparse := bigSetString_fixedDigits digits (x % 10 ^ digits) hd
  rw [Nat.mod_mod] at hparse
  have hsum : ((x / 10 ^ digits : Nat) : Int) * 10 ^ digits + ((x % 10 ^ digits : Nat) : Int)
      = (x : Int) := by
    have := Nat.div_add_mod x (10 ^ digits)
    rw [Nat.mul_comm] at this
    exact_mod_cast this
  unfold etherToUnit
  simp only [hsplit, indexStr, List.get?, run_bind_eq, run_pure_eq, Run.bind_mk_ret,
    fixedDigits_length, le_refl, if_true, run_pure_def, Nat.sub_self, List.replicate_zero,
    List.append_nil, hparse, BigFloat.truncInt, hneg, htrunc, Bool.false_eq_true, if_false,
    hsum]

/-- Dividing the exactly stored `x` (as the fraction `x*D / D`) by a unit
`U < 2^s`, for `x` below `2^(236-s) * U`: the rounded quotient has the integer
part of `x / U`, and `U` times it rounds back to the integer `x`. -/
theorem roundQuo_scaled (s x D U : Nat) (hD : 0 < D) (hU0 : 0 < U) (hU : U < 2 ^ s)
    (hs : s ≤ 236) (hx0 : 0 < x) (hx : x < 2 ^ (236 - s) * U) :
    (roundQuo 236 false (x * D) (D * U)).neg = false
      ∧ (roundQuo 236 false (x * D) (D * U)).num / (roundQuo 236 false (x * D) (D * U)).den
          = x / U
      ∧ rneDiv ((roundQuo 236 false (x * D) (D * U)).num * U)
          (roundQuo 236 false (x * D) (D * U)).den = x := by
  have hA : 0 < x * D := Nat.mul_pos hx0 hD
  have hB : 0 < D * U := Nat.mul_pos hD hU0
  have hfl : floorLog2 (x * D) (D * U) < ((236 - s : Nat) : Int) := by
    by_contra hcon
    have h0 := floorLog2_ge_imp (x * D) (D * U) (236 - s) hA hB (by omega)
    have h1 : x * D < 2 ^ (236 - s) * U * D := mul_lt_mul_of_pos_right hx hD
    have h2 : D * U * 2 ^ (236 - s) = 2 ^ (236 - s) * U * D := by ring
    omega
  have hne : x * D ≠ 0 := by omega
  have hs1 : 1 ≤ s := by
    rcases Nat.eq_zero_or_pos s with h | h
    · rw [h] at hU; simp at hU; omega
    · exact h
  have hneg : ¬ 0 ≤ floorLog2 (x * D) (D * U) - (((236 : Nat) : Int) - 1) := by
    push_cast; omega
  obtain ⟨j, hj⟩ : ∃ j, (-(floorLog2 (x * D) (D * U) - (((236 : Nat) : Int) - 1))).toNat = j :=
    ⟨_, rfl⟩
  have hsj : s ≤ j := by push_cast at hj; omega
  have hUj : U < 2 ^ j := Nat.lt_of_lt_of_le hU (Nat.pow_le_pow_right (by decide) hsj)
  unfold roundQuo
  rw [if_neg hne, if_neg hneg]
  simp only [BigFloat.num, BigFloat.den, if_neg hneg, hj]
  obtain ⟨s1, s2⟩ := rneDiv_spec (x * D * 2 ^ j) (D * U) hB
  generalize rneDiv (x * D * 2 ^ j) (D * U) = M at s1 s2 ⊢
  have t1 : 2 * (M * U) ≤ 2 * (x * 2 ^ j) + U := by
    have e1 : 2 * (M * (D * U)) = D * (2 * (M * U)) := by ring
    have e2 : 2 * (x * D * 2 ^ j) + D * U = D * (2 * (x * 2 ^ j) + U) := by ring
    rw [e1, e2] at s1
    exact Nat.le_of_mul_le_mul_left s1 hD
  have t2 : 2 * (x * 2 ^ j) ≤ 2 * (M * U) + U := by
    have e1 : 2 * (x * D * 2 ^ j) = D * (2 * (x * 2 ^ j)) := by ring
    have e2 : 2 * (M * (D * U)) + D * U = D * (2 * (M * U) + U) := by ring
    rw [e1, e2] at s2
    exact Nat.le_of_mul_le_mul_left s2 hD
  refine ⟨trivial, ?_, ?_⟩
  · apply Nat.div_eq_of_lt_le
    · have hk : x / U * U ≤ x := Nat.div_mul_le_self x U
      have hk2 : x / U * 2 ^ j * U ≤ x * 2 ^ j := by
        have e : x / U * 2 ^ j * U = x / U * U * 2 ^ j := by ring
        rw [e]
        exact Nat.mul_le_mul_right _ hk
      by_contra hcon
      have hlt : M + 1 ≤ x / U * 2 ^ j := by omega
      have h3 : (M + 1) * U ≤ x / U * 2 ^ j * U := Nat.mul_le_mul_right _ hlt
      have e3 : (M + 1) * U = M * U + U := by ring
      generalize x / U * 2 ^ j * U = w at hk2 h3
      generalize x * 2 ^ j = xp at t1 t2 hk2
      generalize M * U = mu at t1 t2 e3
      omega
    · by_contra hcon
      have hge : (x / U + 1) * 2 ^ j ≤ M := by omega
      have h3 : (x / U + 1) * 2 ^ j * U ≤ M * U := Nat.mul_le_mul_right _ hge
      have h4 : x < U * (x / U + 1) := Nat.lt_mul_div_succ x hU0
      have h5 : (x + 1) * 2 ^ j ≤ U * (x / U + 1) * 2 ^ j := Nat.mul_le_mul_right _ h4
      have e5 : U * (x / U + 1) * 2 ^ j = (x / U + 1) * 2 ^ j * U := by ring
      have e6 : (x + 1) * 2 ^ j = x * 2 ^ j + 2 ^ j := by ring
      rw [e5] at h5
      rw [e6] at h5
      generalize (x / U + 1) * 2 ^ j * U = w at h3 h5
      generalize x * 2 ^ j = xp at t1 t2 h5
      generalize M * U = mu at t1 t2 h3
      omega
  · apply rneDiv_unique _ _ _ (by positivity)
    · generalize x * 2 ^ j = xp at t1 t2 ⊢
      generalize M * U = mu at t1 t2 ⊢
      omega
    · generalize x * 2 ^ j = xp at t1 t2 ⊢
      generalize M * U = mu at t1 t2 ⊢
      omega

/-- Converting a positive amount `x` of a unit of `10^digits < 2^s` per ether to
ether and back returns `x`, as long as `x` is below `2^(236-s) * 10^digits`. -/
theorem etherToUnit_roundtrip (digits s x : Nat) (hd : 0 < digits) (hU : 10 ^ digits < 2 ^ s)
    (hs : s ≤ 236) (hx0 : 0 < x) (hx : x < 2 ^ (236 - s) * 10 ^ digits) :
    etherToUnit digits (quoByUnit (x : Int) (10 ^ digits)) = ⟨Res.ret (x : Int), []⟩ := by
  have hx236 : x < 2 ^ 236 := by
    have h1 : 2 ^ (236 - s) * 10 ^ digits ≤ 2 ^ (236 - s) * 2 ^ s :=
      Nat.mul_le_mul_left _ (Nat.le_of_lt hU)
    have h2 : 2 ^ (236 - s) * 2 ^ s = 2 ^ 236 := by
      rw [← Nat.pow_add]; congr 1; omega
    omega
  have hnn : decide ((x : Int) < 0) = false := by simp
  obtain ⟨f1, f2, f3⟩ := roundQuo_int_exact false x hx0 hx236
  have hq : quoByUnit (x : Int) (10 ^ digits)
      = roundQuo 236 false (x * (roundQuo 236 false x 1).den)
          ((roundQuo 236 false x 1).den * 10 ^ digits) := by
    unfold quoByUnit
    rw [hnn, Int.natAbs_ofNat, f1, f2]
  obtain ⟨q1, q2, q3⟩ := roundQuo_scaled s x (roundQuo 236 false x 1).den (10 ^ digits) f3
    (by positivity) hU hs hx0 hx
  rw [hq]
  exact etherToUnit_of_exact digits _ x hd q1 q2 q3

set_option maxRecDepth 100000 in
/-- C13 (the claim as written fails): the amount 2^176·10^18 + 1 wei comes back
from `EtherToWei (WeiToEther x)` as 2^176·10^18 + 2. The quotient by 10^18 needs
more than the 236 bits of the ether value. -/
theorem EtherToWei_WeiToEther_counterexample :
    EtherToWei (WeiToEther (2 ^ 176 * 10 ^ 18 + 1))
      = ⟨Res.ret (2 ^ 176 * 10 ^ 18 + 2), []⟩ := by
  decide

set_option maxRecDepth 100000 in
/-- C13 (amended): for every amount `x` of at most 2^176·10^18 wei,
`EtherToWei (WeiToEther x)` returns `x` exactly. -/
theorem EtherToWei_WeiToEther_roundtrip (x : Nat) (hx : x ≤ 2 ^ 176 * 10 ^ 18) :
    EtherToWei (WeiToEther (x : Int)) = ⟨Res.ret (x : Int), []⟩ := by
  rcases Nat.eq_zero_or_pos x with h0 | hpos
  · subst h0; decide
  · rcases Nat.lt_or_eq_of_le hx with hlt | heq
    · exact etherToUnit_roundtrip 18 60 x (by decide) (by decide) (by decide) hpos hlt
    · subst heq; decide

set_option maxRecDepth 100000 in
theorem EtherToWei_WeiToEther_roundtrip_witness :
    1234567890123456789 ≤ 2 ^ 176 * 10 ^ 18
      ∧ EtherToWei (WeiToEther ((1234567890123456789 : Nat) : Int))
          = ⟨Res.ret ((1234567890123456789 : Nat) : Int), []⟩ :=
  ⟨by decide, EtherToWei_WeiToEther_roundtrip 1234567890123456789 (by decide)⟩

set_option maxRecDepth 100000 in
/-- C14 (the claim as written fails): the amount 2^206·10^9 + 1 gwei comes back
from `EtherToGwei (GweiToEther g)` as 2^206·10^9 + 2. The quotient by 10^9 needs
more than the 236 bits of the ether value. -/
theorem EtherToGwei_GweiToEther_counterexample :
    EtherToGwei (GweiToEther (2 ^ 206 * 10 ^ 9 + 1))
      = ⟨Res.ret (2 ^ 206 * 10 ^ 9 + 2), []⟩ := by
  decide

set_option maxRecDepth 100000 in
/-- C14 (amended): for every amount `g` of at most 2^206·10^9 gwei,
`EtherToGwei (GweiToEther g)` returns `g` exactly. -/
theorem EtherToGwei_GweiToEther_roundtrip (g : Nat) (hg : g ≤ 2 ^ 206 * 10 ^ 9) :
    EtherToGwei (GweiToEther (g : Int)) = ⟨Res.ret (g : Int), []⟩ := by
  rcases Nat.eq_zero_or_pos g with h0 | hpos
  · subst h0; decide
  · rcases Nat.lt_or_eq_of_le hg with hlt | heq
    · exact etherToUnit_roundtrip 9 30 g (by decide) (by decide) (by decide) hpos hlt
    · subst heq; decide

set_option maxRecDepth 100000 in
theorem EtherToGwei_GweiToEther_roundtrip_witness :
    21000000000 ≤ 2 ^ 206 * 10 ^ 9
      ∧ EtherToGwei (GweiToEther ((21000000000 : Nat) : Int))
          = ⟨Res.ret ((21000000000 : Nat) : Int), []⟩ :=
  ⟨by decide, EtherToGwei_GweiToEther_roundtrip 21000000000 (by decide)⟩

end Web3Helper
